import Mathlib

/-!
# Cloud storage engine: accounts, lockout and quota accounting

A shallow embedding of `cloud_storage.cpp`.

* `std::string` is `String`; `int` and `time_t` are `Int`; a finite `double` is the
  rational (`ℚ`) it stands for.  `uploadFile` and `deleteFile` add and subtract sizes
  exactly; `roundDouble` is the rounding to the nearest `double`, and `uploadFileFl`,
  `uploadFileStored` and `showDouble` have it where the machine rounds.  The only
  arithmetic on an `int` is `failedLogins++`, and the count stays at most
  `MAX_FAILED_LOGINS` on every table built from fresh accounts.
* `unordered_map` tables are association lists in which an entry is found by its key;
  a `User*` into the table (`currentUser`, the result of `find`) is the key of the entry,
  and a write through the pointer rewrites that entry in place.
* Every value the program reads from the console, the clock, the random generator or the
  file system is an explicit input of the operation that reads it.  A prompt that is
  repeated until the answer is accepted takes the list of answers typed; when the list
  runs out before an answer is accepted the operation does not return (`none`).
* What an operation prints is kept as a message tag next to the new engine state.
* The data files are text on a `Disk` (path and contents).  `save` and `load` write and
  parse that text; an output file that does not open leaves the disk as it is.  The
  operations above take the outcome of each file access as an input;
  `uploadFileStored` runs `uploadFile` and `loginAt` runs `login` against a `Disk`.
-/

namespace CloudStorage

/-! ## Configuration -/

namespace Config

def FREE_STORAGE_LIMIT : ℚ := 1024

def PREMIUM_STORAGE_LIMIT : ℚ := 10240

def ADMIN_STORAGE_LIMIT : ℚ := 102400

def MAX_FAILED_LOGINS : Int := 5

def PASSWORD_MIN_LEN : Int := 8

end Config

/-! ## Enums -/

inductive UserRole where
  | FREE_USER
  | PREMIUM_USER
  | ADMIN
  deriving DecidableEq, Repr

inductive Region where
  | ASIA
  | EUROPE
  | AMERICA
  | GLOBAL
  deriving DecidableEq, Repr

inductive FileType where
  | DOCUMENT
  | IMAGE
  | VIDEO
  | AUDIO
  | OTHER
  deriving DecidableEq, Repr

inductive AuditEventType where
  | SYSTEM
  | REGISTER
  | LOGIN_SUCCESS
  | LOGIN_FAIL
  | LOCKOUT
  | LOGOUT
  | UPLOAD
  | DELETE
  | UPGRADE
  | ADMIN_ACTION
  deriving DecidableEq, Repr

/-! ## Helpers -/

/-- Index of the last occurrence of `c` in `s`, as `std::string::find_last_of`;
`none` stands for `npos`. -/
def find_last_of : List Char → Char → Option Nat
  | [], _ => none
  | x :: xs, c =>
    match find_last_of xs c with
    | some p => some (p + 1)
    | none => if x = c then some 0 else none

/-- File type from the extension after the last dot, compared in lower case. -/
def detectFileType (filename : String) : FileType :=
  match find_last_of filename.toList '.' with
  | none => FileType.OTHER
  | some pos =>
    let ext : String := String.mk ((filename.toList.drop (pos + 1)).map Char.toLower)
    if ext = "txt" ∨ ext = "pdf" ∨ ext = "doc" ∨ ext = "docx" ∨ ext = "xlsx" ∨ ext = "pptx" then
      FileType.DOCUMENT
    else if ext = "jpg" ∨ ext = "jpeg" ∨ ext = "png" ∨ ext = "gif" ∨ ext = "bmp" then
      FileType.IMAGE
    else if ext = "mp4" ∨ ext = "avi" ∨ ext = "mov" ∨ ext = "wmv" ∨ ext = "mkv" then
      FileType.VIDEO
    else if ext = "mp3" ∨ ext = "wav" ∨ ext = "flac" ∨ ext = "aac" then
      FileType.AUDIO
    else
      FileType.OTHER

/-! ## Models -/

structure User where
  username : String
  salt : String
  passwordHash : String
  fullName : String
  age : Int
  gender : String
  role : UserRole
  usedStorage : ℚ
  registrationDate : Int
  isActive : Bool
  failedLogins : Int
  isLocked : Bool
  lastLoginTime : Int
  mfaEnabled : Bool
  deriving DecidableEq

def User.storageLimit (u : User) : ℚ :=
  match u.role with
  | UserRole.FREE_USER => Config.FREE_STORAGE_LIMIT
  | UserRole.PREMIUM_USER => Config.PREMIUM_STORAGE_LIMIT
  | UserRole.ADMIN => Config.ADMIN_STORAGE_LIMIT

structure FileRecord where
  id : String
  name : String
  owner : String
  region : Region
  type : FileType
  uploadDate : String
  sizeMB : ℚ
  description : String
  isPublic : Bool
  encryptedAtRest : Bool
  deriving DecidableEq

/-! ## UserRepository -/

/-- Rewrite the first element that satisfies `p`: a write through a pointer to the entry
that a lookup by `p` returns. -/
def modifyFirst {α : Type} (p : α → Bool) (f : α → α) : List α → List α
  | [] => []
  | x :: xs => if p x then f x :: xs else x :: modifyFirst p f xs

structure UserRepository where
  users : List User
  deriving DecidableEq

namespace UserRepository

def find (r : UserRepository) (username : String) : Option User :=
  r.users.find? (fun u => u.username == username)

/-- The member `exists` of the source. -/
def existsUser (r : UserRepository) (username : String) : Bool :=
  (r.find username).isSome

/-- The assignment `users[u.username] = u`. -/
def add (r : UserRepository) (u : User) : UserRepository :=
  if r.existsUser u.username then
    ⟨modifyFirst (fun x => x.username == u.username) (fun _ => u) r.users⟩
  else
    ⟨r.users ++ [u]⟩

/-- A write `f` through the pointer that `find username` returns. -/
def modify (r : UserRepository) (username : String) (f : User → User) : UserRepository :=
  ⟨modifyFirst (fun u => u.username == username) f r.users⟩

end UserRepository

/-! ## FileRepository -/

structure FileRepository where
  filesByUser : List (String × List FileRecord)
  deriving DecidableEq

namespace FileRepository

def filesOfConst (r : FileRepository) (username : String) : List FileRecord :=
  match r.filesByUser.find? (fun p => p.1 == username) with
  | some p => p.2
  | none => []

/-- The repository after `filesOf(username)`: `operator[]` adds an empty list for a key
that is absent.  The list the call refers to is `filesOfConst` of the result. -/
def filesOf (r : FileRepository) (username : String) : FileRepository :=
  if (r.filesByUser.find? (fun p => p.1 == username)).isSome then r
  else ⟨r.filesByUser ++ [(username, [])]⟩

/-- The repository after the list `filesOf(username)` refers to has been replaced by
`files` through that reference. -/
def assign (r : FileRepository) (username : String) (files : List FileRecord) :
    FileRepository :=
  ⟨modifyFirst (fun p => p.1 == username) (fun p => (p.1, files))
    (r.filesOf username).filesByUser⟩

/-- The repository after `loadUserFiles(username)`.  `content` is what the loop reads
from the data file of the user: `none` when the file can not be opened (the list in
memory is then left as it is), otherwise the records parsed from its lines. -/
def loadUserFiles (r : FileRepository) (username : String)
    (content : Option (List FileRecord)) : FileRepository :=
  match content with
  | none => r
  | some records => r.assign username records

end FileRepository

/-! ### Text of the data files

The number conversions of the C++ library are modelled on exact numbers: `operator<<` of
an `int`, a `long` or a `bool`, `operator<<` of a `double` at the default precision (the
`%g` conversion with 6 significant digits), and the decimal forms `stoi`, `stol` and
`stod` accept.  A conversion that throws gives `none`. -/

/-- The text `operator<<` writes for an `int` or a `long`. -/
def showInt (n : Int) : String := toString n

/-- The text `operator<<` writes for a `bool`. -/
def showBool (b : Bool) : String := if b then "1" else "0"

/-- Nearest natural number to `num / den`, ties to even. -/
def roundHalfEven (num den : Nat) : Nat :=
  let q := num / den
  let r := num % den
  if 2 * r > den ∨ (2 * r = den ∧ q % 2 = 1) then q + 1 else q

/-- Remove the zeros at the end. -/
def stripZeros (l : List Char) : List Char :=
  (l.reverse.dropWhile (fun c => c == '0')).reverse

/-- The double nearest to `x`, ties to the even significand (53 bits, least exponent
-1022), as an exact number: the result of a `double` operation whose exact result is `x`.
Overflow to infinity is outside the model. -/
def roundDouble (x : ℚ) : ℚ :=
  if x.num = 0 then 0
  else
    let n := x.num.natAbs
    let d := x.den
    let k : Int := ((Nat.toDigits 2 n).length : Int) - ((Nat.toDigits 2 d).length : Int)
    let e0 : Int := if n * 2 ^ (-k).toNat ≥ d * 2 ^ k.toNat then k else k - 1
    let s : Int := (if e0 < -1022 then -1022 else e0) - 52
    let m := roundHalfEven (n * 2 ^ (-s).toNat) (d * 2 ^ s.toNat)
    let v : ℚ := mkRat ((m : Int) * 2 ^ s.toNat) (2 ^ (-s).toNat)
    if x.num < 0 then -v else v

/-- The `%g` conversion of the exact value `x` with 6 significant digits: fixed notation
for a decimal exponent from -4 to 5 and scientific notation otherwise, zeros at the end
removed. -/
def showSixDigits (x : ℚ) : String :=
  if x.num = 0 then "0"
  else
    let n := x.num.natAbs
    let d := x.den
    let k : Int := ((Nat.toDigits 10 n).length : Int) - ((Nat.toDigits 10 d).length : Int)
    let x0 : Int := if n * 10 ^ (-k).toNat ≥ d * 10 ^ k.toNat then k else k - 1
    let m0 := roundHalfEven (n * 10 ^ (5 - x0).toNat) (d * 10 ^ (x0 - 5).toNat)
    let ex : Int := if m0 = 1000000 then x0 + 1 else x0
    let m : Nat := if m0 = 1000000 then 100000 else m0
    let digits := Nat.toDigits 10 m
    let body : List Char :=
      if ex < -4 ∨ ex ≥ 6 then
        let frac := stripZeros (digits.drop 1)
        let exDigits := Nat.toDigits 10 ex.natAbs
        digits.take 1 ++ (if frac = [] then [] else '.' :: frac) ++
          ['e', if ex < 0 then '-' else '+'] ++
          (if exDigits.length < 2 then '0' :: exDigits else exDigits)
      else if ex ≥ 0 then
        let frac := stripZeros (digits.drop (ex.toNat + 1))
        digits.take (ex.toNat + 1) ++ (if frac = [] then [] else '.' :: frac)
      else
        '0' :: '.' :: stripZeros (List.replicate (-ex - 1).toNat '0' ++ digits)
    (if x.num < 0 then "-" else "") ++ String.mk body

/-- The text `operator<<` writes for a `double` with the default stream settings (6
significant digits).  The double held for the number `x` is the one nearest to `x`. -/
def showDouble (x : ℚ) : String := showSixDigits (roundDouble x)

/-- The characters `isspace` accepts. -/
def isSpace (c : Char) : Bool :=
  c = ' ' ∨ c = '\t' ∨ c = '\n' ∨ c = '\x0b' ∨ c = '\x0c' ∨ c = '\r'

/-- Value of a list of decimal digits. -/
def digitsValue (l : List Char) : Nat :=
  l.foldl (fun acc c => 10 * acc + (c.toNat - 48)) 0

/-- An optional sign: whether it is a minus, and the characters after it. -/
def readSign : List Char → Bool × List Char
  | '-' :: rest => (true, rest)
  | '+' :: rest => (false, rest)
  | rest => (false, rest)

/-- The decimal integer at the start of `token` (after white space), whatever follows
it; `none` when there is no digit. -/
def readInteger (token : String) : Option Int :=
  let s := readSign (token.toList.dropWhile isSpace)
  let ds := s.2.takeWhile Char.isDigit
  if ds = [] then none
  else some (if s.1 then -(digitsValue ds : Int) else (digitsValue ds : Int))

/-- The function `std::stoi`: `none` when it throws (no digit, or out of the `int` range). -/
def stoi (token : String) : Option Int :=
  match readInteger token with
  | none => none
  | some v => if v < -2147483648 ∨ v > 2147483647 then none else some v

/-- The function `std::stol`: `none` when it throws (no digit, or out of the `long` range). -/
def stol (token : String) : Option Int :=
  match readInteger token with
  | none => none
  | some v => if v < -9223372036854775808 ∨ v > 9223372036854775807 then none else some v

/-- The decimal exponent part `e±dd` at the start of `s`; 0 when there is none. -/
def readExponent : List Char → Int
  | [] => 0
  | c :: rest =>
    if c = 'e' ∨ c = 'E' then
      let s := readSign rest
      let ds := s.2.takeWhile Char.isDigit
      if ds = [] then 0
      else if s.1 then -(digitsValue ds : Int) else (digitsValue ds : Int)
    else 0

/-- The function `std::stod` on decimal text (sign, digits, fraction, exponent): the exact
value of the decimal read, to which the double returned is the nearest; `none` when it
throws because no number starts the text.  The forms `nan`, `inf` and hexadecimal, and the
throw on overflow, are outside the model. -/
def stod (token : String) : Option ℚ :=
  let s := readSign (token.toList.dropWhile isSpace)
  let ip := s.2.takeWhile Char.isDigit
  let afterInt := s.2.dropWhile Char.isDigit
  let fp : List Char :=
    match afterInt with
    | '.' :: rest => rest.takeWhile Char.isDigit
    | _ => []
  let afterFrac : List Char :=
    match afterInt with
    | '.' :: rest => rest.dropWhile Char.isDigit
    | _ => afterInt
  if ip = [] ∧ fp = [] then none
  else
    let ex := readExponent afterFrac
    let v : ℚ := mkRat ((digitsValue (ip ++ fp) : Int) * 10 ^ ex.toNat)
      (10 ^ fp.length * 10 ^ (-ex).toNat)
    some (if s.1 then -v else v)

def UserRole.toInt : UserRole → Int
  | UserRole.FREE_USER => 0
  | UserRole.PREMIUM_USER => 1
  | UserRole.ADMIN => 2

/-- The cast from `int`; an ordinal outside the enumeration has no counterpart here. -/
def UserRole.ofInt (n : Int) : Option UserRole :=
  if n = 0 then some UserRole.FREE_USER
  else if n = 1 then some UserRole.PREMIUM_USER
  else if n = 2 then some UserRole.ADMIN
  else none

def Region.toInt : Region → Int
  | Region.ASIA => 0
  | Region.EUROPE => 1
  | Region.AMERICA => 2
  | Region.GLOBAL => 3

/-- The cast from `int`; an ordinal outside the enumeration has no counterpart here. -/
def Region.ofInt (n : Int) : Option Region :=
  if n = 0 then some Region.ASIA
  else if n = 1 then some Region.EUROPE
  else if n = 2 then some Region.AMERICA
  else if n = 3 then some Region.GLOBAL
  else none

def FileType.toInt : FileType → Int
  | FileType.DOCUMENT => 0
  | FileType.IMAGE => 1
  | FileType.VIDEO => 2
  | FileType.AUDIO => 3
  | FileType.OTHER => 4

/-- The cast from `int`; an ordinal outside the enumeration has no counterpart here. -/
def FileType.ofInt (n : Int) : Option FileType :=
  if n = 0 then some FileType.DOCUMENT
  else if n = 1 then some FileType.IMAGE
  else if n = 2 then some FileType.VIDEO
  else if n = 3 then some FileType.AUDIO
  else if n = 4 then some FileType.OTHER
  else none

/-- A `stringstream` over one line: the characters not yet read, and whether the stream
is still good (a read that reaches the end of the text leaves it not good). -/
structure LineStream where
  rest : List Char
  good : Bool

/-- The call `getline(ss, field, '|')`: the new value of `field` (`old` is its value
before the call, kept when the stream is not good) and the stream after the call. -/
def getField (ss : LineStream) (old : String) : String × LineStream :=
  if !ss.good then (old, ss)
  else
    match ss.rest.dropWhile (fun c => c != '|') with
    | [] => (String.mk (ss.rest.takeWhile (fun c => c != '|')), { rest := [], good := false })
    | _ :: tl =>
      (String.mk (ss.rest.takeWhile (fun c => c != '|')), { rest := tl, good := true })

/-- The lines `getline(file, line)` reads from a text, given the characters of the line
being read. -/
def fileLines : List Char → List Char → List String
  | [], acc => if acc = [] then [] else [String.mk acc]
  | c :: rest, acc =>
    if c = '\n' then String.mk acc :: fileLines rest [] else fileLines rest (acc ++ [c])

/-- The line `UserRepository::save` writes for an account. -/
def userLine (u : User) : String :=
  u.username ++ "|" ++ u.salt ++ "|" ++ u.passwordHash ++ "|" ++ u.fullName ++ "|" ++
  showInt u.age ++ "|" ++ u.gender ++ "|" ++ showInt u.role.toInt ++ "|" ++
  showDouble u.usedStorage ++ "|" ++ showInt u.registrationDate ++ "|" ++
  showBool u.isActive ++ "|" ++ showInt u.failedLogins ++ "|" ++ showBool u.isLocked ++ "|" ++
  showInt u.lastLoginTime ++ "|" ++ showBool u.mfaEnabled ++ "\n"

/-- The body of the loop of `UserRepository::load` for one line; `none` when a number
conversion throws.  A role ordinal outside the enumeration, which `save` never writes
and the cast would keep, also gives `none`. -/
def parseUserLine (line : String) : Option User :=
  let f1 := getField { rest := line.toList, good := true } ""
  let f2 := getField f1.2 ""
  let f3 := getField f2.2 ""
  let f4 := getField f3.2 ""
  let t5 := getField f4.2 ""
  let f6 := getField t5.2 ""
  let t7 := getField f6.2 t5.1
  let t8 := getField t7.2 t7.1
  let t9 := getField t8.2 t8.1
  let t10 := getField t9.2 t9.1
  let t11 := getField t10.2 t10.1
  let t12 := getField t11.2 t11.1
  let t13 := getField t12.2 t12.1
  let t14 := getField t13.2 t13.1
  match stoi t5.1, (stoi t7.1).bind UserRole.ofInt, stod t8.1, stol t9.1, stoi t11.1,
    stol t13.1 with
  | some age, some role, some usedStorage, some registrationDate, some failedLogins,
    some lastLoginTime =>
    some
      { username := f1.1, salt := f2.1, passwordHash := f3.1, fullName := f4.1, age := age,
        gender := f6.1, role := role, usedStorage := usedStorage,
        registrationDate := registrationDate, isActive := t10.1 == "1",
        failedLogins := failedLogins, isLocked := t12.1 == "1",
        lastLoginTime := lastLoginTime, mfaEnabled := t14.1 == "1" }
  | _, _, _, _, _, _ => none

/-- The line `FileRepository::saveUserFiles` writes for a record. -/
def fileLine (fr : FileRecord) : String :=
  fr.id ++ "|" ++ fr.name ++ "|" ++ fr.owner ++ "|" ++ showInt fr.region.toInt ++ "|" ++
  showInt fr.type.toInt ++ "|" ++ fr.uploadDate ++ "|" ++ showDouble fr.sizeMB ++ "|" ++
  fr.description ++ "|" ++ showBool fr.isPublic ++ "|" ++ showBool fr.encryptedAtRest ++ "\n"

/-- The body of the loop of `FileRepository::loadUserFiles` for one line; `none` when a
number conversion throws.  A region or type ordinal outside the enumeration, which
`saveUserFiles` never writes and the cast would keep, also gives `none`. -/
def parseFileLine (line : String) : Option FileRecord :=
  let f1 := getField { rest := line.toList, good := true } ""
  let f2 := getField f1.2 ""
  let f3 := getField f2.2 ""
  let t4 := getField f3.2 ""
  let t5 := getField t4.2 t4.1
  let f6 := getField t5.2 ""
  let t7 := getField f6.2 t5.1
  let f8 := getField t7.2 ""
  let t9 := getField f8.2 t7.1
  let t10 := getField t9.2 t9.1
  match (stoi t4.1).bind Region.ofInt, (stoi t5.1).bind FileType.ofInt, stod t7.1 with
  | some region, some type, some sizeMB =>
    some
      { id := f1.1, name := f2.1, owner := f3.1, region := region, type := type,
        uploadDate := f6.1, sizeMB := sizeMB, description := f8.1,
        isPublic := t9.1 == "1", encryptedAtRest := t10.1 == "1" }
  | _, _, _ => none

/-- Parse every line in order; `none` when one of them throws. -/
def parseLines {α : Type} (parse : String → Option α) : List String → Option (List α)
  | [] => some []
  | line :: rest =>
    match parse line, parseLines parse rest with
    | some a, some l => some (a :: l)
    | _, _ => none

/-! ### The files on disk -/

/-- The files the program reads and writes: path and contents. -/
structure Disk where
  files : List (String × String)
  deriving DecidableEq

namespace Disk

/-- The contents of the file at `path`, `none` when there is no such file. -/
def read (d : Disk) (path : String) : Option String :=
  match d.files.find? (fun p => p.1 == path) with
  | some p => some p.2
  | none => none

/-- The disk after the file at `path` has been created or replaced with `text`. -/
def write (d : Disk) (path : String) (text : String) : Disk :=
  if (d.read path).isSome then
    ⟨modifyFirst (fun p => p.1 == path) (fun p => (p.1, text)) d.files⟩
  else ⟨d.files ++ [(path, text)]⟩

end Disk

namespace Config

def USERS_FILE : String := "cloud_users.dat"

def DATA_DIR : String := "cloud_data/"

end Config

/-- The member `UserRepository::save`: `canOpen` tells whether the output file opens; the
result is the disk after the call and the value returned.  The lines are written in the
order of the list, which stands for the iteration order of the `unordered_map`. -/
def UserRepository.save (r : UserRepository) (d : Disk) (canOpen : Bool) : Disk × Bool :=
  if !canOpen then (d, false)
  else (d.write Config.USERS_FILE (String.join (r.users.map userLine)), true)

/-- The member `UserRepository::load`: the table after the call, `none` when a number
conversion throws.  A file that is absent leaves the table as it is. -/
def UserRepository.load (r : UserRepository) (d : Disk) : Option UserRepository :=
  match d.read Config.USERS_FILE with
  | none => some r
  | some text =>
    match parseLines parseUserLine (fileLines text.toList []) with
    | none => none
    | some users => some (users.foldl UserRepository.add r)

/-- The path of the data file of a user. -/
def FileRepository.pathOf (username : String) : String :=
  Config.DATA_DIR ++ username ++ ".dat"

/-- The member `FileRepository::saveUserFiles`: the repository (the access
`filesByUser[username]` can add an empty list), the disk after the call and the value
returned. -/
def FileRepository.saveUserFiles (r : FileRepository) (username : String) (d : Disk)
    (canOpen : Bool) : FileRepository × Disk × Bool :=
  if !canOpen then (r, d, false)
  else
    (r.filesOf username,
      d.write (FileRepository.pathOf username)
        (String.join ((r.filesOfConst username).map fileLine)),
      true)

/-- The member `FileRepository::loadUserFiles` reading from the disk: the repository
after the call, `none` when a number conversion throws. -/
def FileRepository.loadUserFilesAt (r : FileRepository) (username : String) (d : Disk) :
    Option FileRepository :=
  match d.read (FileRepository.pathOf username) with
  | none => some r
  | some text =>
    match parseLines parseFileLine (fileLines text.toList []) with
    | none => none
    | some records => some (r.loadUserFiles username (some records))

/-- The account table a fresh `UserRepository` reads from the disk. -/
def Disk.accountTable (d : Disk) : Option UserRepository :=
  UserRepository.load ⟨[]⟩ d

/-- The file list of `username` a fresh `FileRepository` reads from the disk. -/
def Disk.fileList (d : Disk) (username : String) : Option (List FileRecord) :=
  (FileRepository.loadUserFilesAt ⟨[]⟩ username d).map
    (fun r => r.filesOfConst username)

/-! ## CloudEngine -/

structure CloudEngine where
  userRepo : UserRepository
  fileRepo : FileRepository
  currentUser : Option String
  deriving DecidableEq

namespace CloudEngine

def isLoggedIn (e : CloudEngine) : Bool := e.currentUser.isSome

/-- The account `currentUser` points to. -/
def current (e : CloudEngine) : Option User :=
  match e.currentUser with
  | none => none
  | some username => e.userRepo.find username

/-! ### Auth

`sha256` is not defined in the source outside Apple platforms (the class body is left
out), so the digest function is a parameter of the operations that call it. -/

/-- Console and environment inputs of one run of `registerUser`.  `passwords` holds the
lines typed at the password and confirmation prompts, in order; an entry of `ages` is
`none` when `stoi` throws on the line typed. -/
structure RegisterInput where
  usernames : List String
  passwords : List String
  salt : String
  fullName : String
  ages : List (Option Int)
  genders : List String
  now : Int
  saved : Bool

/-- The username prompt: repeated while the name is shorter than 3 bytes or taken. -/
def readUsername (r : UserRepository) : List String → Option String
  | [] => none
  | name :: rest =>
    if name.utf8ByteSize < 3 then readUsername r rest
    else if r.existsUser name then readUsername r rest
    else some name

/-- The password prompt: repeated while the password is too short, lacks a digit or a
letter, or differs from the confirmation, which is read only after the first two checks
pass. -/
def readPassword : List String → Option String
  | [] => none
  | pwd :: rest =>
    if (pwd.utf8ByteSize : Int) < Config.PASSWORD_MIN_LEN then readPassword rest
    else if !(pwd.toList.any Char.isDigit) || !(pwd.toList.any Char.isAlpha) then
      readPassword rest
    else
      match rest with
      | [] => none
      | confirm :: rest2 => if pwd ≠ confirm then readPassword rest2 else some pwd

/-- The age prompt: repeated while the line does not parse or is outside `1..120`. -/
def readAge : List (Option Int) → Option Int
  | [] => none
  | none :: rest => readAge rest
  | some age :: rest => if age < 1 ∨ age > 120 then readAge rest else some age

/-- The gender prompt: repeated until one of `M`, `m`, `F`, `f` is typed. -/
def readGender : List String → Option String
  | [] => none
  | g :: rest => if g = "M" ∨ g = "m" ∨ g = "F" ∨ g = "f" then some g else readGender rest

/-- The result is the engine after the run and the value returned. -/
def registerUser (sha256 : String → String) (e : CloudEngine) (inp : RegisterInput) :
    Option (CloudEngine × Bool) :=
  match readUsername e.userRepo inp.usernames with
  | none => none
  | some username =>
    match readPassword inp.passwords with
    | none => none
    | some pwd =>
      match readAge inp.ages with
      | none => none
      | some age =>
        match readGender inp.genders with
        | none => none
        | some gender =>
          let u : User :=
            { username := username
              salt := inp.salt
              passwordHash := sha256 (inp.salt ++ pwd)
              fullName := inp.fullName
              age := age
              gender := gender
              role := UserRole.FREE_USER
              usedStorage := 0
              registrationDate := inp.now
              isActive := true
              failedLogins := 0
              isLocked := false
              lastLoginTime := 0
              mfaEnabled := false }
          some ({ e with userRepo := e.userRepo.add u }, inp.saved)

/-- Console and environment inputs of one run of `login`: `mfaCode` is the code
`generateMfaCode` issues and `mfaInput` the line typed at the MFA prompt (both are used
only when MFA is enabled), `now` is the clock, `userFile` is what `loadUserFiles` reads
when it returns (`loginAt` below reads the data file itself and covers the throw). -/
structure LoginInput where
  username : String
  password : String
  mfaCode : String
  mfaInput : String
  now : Int
  userFile : Option (List FileRecord)

/-- The line `login` prints for the caller. -/
inductive LoginMsg where
  | invalidCredentials
  | deactivated
  | locked
  | tooManyAttempts
  | invalidCredentialsAttempts (failedLogins : Int)
  | invalidMfaCode
  | welcomeBack
  deriving DecidableEq, Repr

structure LoginResult where
  engine : CloudEngine
  ok : Bool
  msg : LoginMsg
  audit : List (AuditEventType × String)
  deriving DecidableEq

/-- The engine after `login`, the value returned, the line printed and the audit entries,
for a run in which `loadUserFiles` returns with the records `inp.userFile`.
The results of `userRepo.save()` are not read by the source. -/
def login (sha256 : String → String) (e : CloudEngine) (inp : LoginInput) : LoginResult :=
  match e.userRepo.find inp.username with
  | none =>
    { engine := e, ok := false, msg := LoginMsg.invalidCredentials
      audit := [(AuditEventType.LOGIN_FAIL, "User=" ++ inp.username ++ " reason=not_found")] }
  | some u =>
    if !u.isActive then
      { engine := e, ok := false, msg := LoginMsg.deactivated
        audit := [(AuditEventType.LOGIN_FAIL, "User=" ++ inp.username ++ " reason=inactive")] }
    else if u.isLocked then
      { engine := e, ok := false, msg := LoginMsg.locked
        audit := [(AuditEventType.LOGIN_FAIL, "User=" ++ inp.username ++ " reason=locked")] }
    else if sha256 (u.salt ++ inp.password) ≠ u.passwordHash then
      if u.failedLogins + 1 ≥ Config.MAX_FAILED_LOGINS then
        { engine :=
            { e with
              userRepo := (e.userRepo.modify inp.username
                (fun x => { x with failedLogins := x.failedLogins + 1, isLocked := true })) }
          ok := false
          msg := LoginMsg.tooManyAttempts
          audit :=
            [(AuditEventType.LOGIN_FAIL, "User=" ++ inp.username ++ " reason=bad_password"),
             (AuditEventType.LOCKOUT, "User=" ++ inp.username)] }
      else
        { engine :=
            { e with
              userRepo := (e.userRepo.modify inp.username
                (fun x => { x with failedLogins := x.failedLogins + 1 })) }
          ok := false
          msg := LoginMsg.invalidCredentialsAttempts (u.failedLogins + 1)
          audit :=
            [(AuditEventType.LOGIN_FAIL, "User=" ++ inp.username ++ " reason=bad_password")] }
    else if u.mfaEnabled && inp.mfaInput ≠ inp.mfaCode then
      { engine := e, ok := false, msg := LoginMsg.invalidMfaCode
        audit := [(AuditEventType.LOGIN_FAIL, "User=" ++ inp.username ++ " reason=mfa_failed")] }
    else
      { engine :=
          { userRepo := (e.userRepo.modify inp.username
              (fun x => { x with failedLogins := 0, isLocked := false, lastLoginTime := inp.now }))
            fileRepo := e.fileRepo.loadUserFiles u.username inp.userFile
            currentUser := some inp.username }
        ok := true
        msg := LoginMsg.welcomeBack
        audit := [(AuditEventType.LOGIN_SUCCESS, "User=" ++ u.username)] }

def logout (e : CloudEngine) : CloudEngine :=
  match e.currentUser with
  | none => e
  | some _ => { e with currentUser := none }

/-- Run `login` once for each input, in order. -/
def loginAll (sha256 : String → String) (e : CloudEngine) : List LoginInput → CloudEngine
  | [] => e
  | inp :: rest => loginAll sha256 (login sha256 e inp).engine rest

/-! ### Files -/

/-- Console and environment inputs of one run of `uploadFile`. -/
structure UploadInput where
  fileId : String
  names : List String
  sizes : List (Option ℚ)
  regionChoice : Int
  description : String
  makePublic : Char
  encrypt : Char
  uploadDate : String
  usersSaved : Bool
  filesSaved : Bool

inductive UploadMsg where
  | notLoggedIn
  | storageLimitExceeded
  | uploaded
  | failedToSave
  deriving DecidableEq, Repr

/-- The file-name prompt: repeated while the line typed is empty. -/
def readFileName : List String → Option String
  | [] => none
  | name :: rest => if name = "" then readFileName rest else some name

inductive SizePrompt where
  | limitExceeded
  | accepted (sizeMB : ℚ)
  deriving DecidableEq

/-- The file-size prompt.  An entry is `none` when `stod` throws on the line typed.
A size that does not parse or is not positive repeats the prompt; a size that would
exceed the limit ends `uploadFile`. -/
def readFileSize (cu : User) : List (Option ℚ) → Option SizePrompt
  | [] => none
  | none :: rest => readFileSize cu rest
  | some sizeMB :: rest =>
    if sizeMB ≤ 0 then readFileSize cu rest
    else if cu.usedStorage + sizeMB > cu.storageLimit then some SizePrompt.limitExceeded
    else some (SizePrompt.accepted sizeMB)

def regionOfChoice (r : Int) : Region :=
  if r = 1 then Region.ASIA
  else if r = 2 then Region.EUROPE
  else if r = 3 then Region.AMERICA
  else Region.GLOBAL

/-- The engine after `uploadFile` and the last message printed, with sizes taken as exact
numbers (the sums are not rounded; `uploadFileFl` below has the rounding).  `currentUser`
always points into the table, so the lookup of the session key finds the account; the
branch for a key that is not found is not reached by the source and behaves as no
session. -/
def uploadFile (e : CloudEngine) (inp : UploadInput) : Option (CloudEngine × UploadMsg) :=
  match e.currentUser with
  | none => some (e, UploadMsg.notLoggedIn)
  | some username =>
    match e.userRepo.find username with
    | none => some (e, UploadMsg.notLoggedIn)
    | some cu =>
      match readFileName inp.names with
      | none => none
      | some name =>
        match readFileSize cu inp.sizes with
        | none => none
        | some SizePrompt.limitExceeded => some (e, UploadMsg.storageLimitExceeded)
        | some (SizePrompt.accepted sizeMB) =>
          let fr : FileRecord :=
            { id := inp.fileId
              name := name
              owner := cu.username
              region := regionOfChoice inp.regionChoice
              type := detectFileType name
              uploadDate := inp.uploadDate
              sizeMB := sizeMB
              description := inp.description
              isPublic := inp.makePublic = 'Y' ∨ inp.makePublic = 'y'
              encryptedAtRest := inp.encrypt = 'Y' ∨ inp.encrypt = 'y' }
          let userRepo := e.userRepo.modify username
            (fun u => { u with usedStorage := u.usedStorage + sizeMB })
          let fileRepo := e.fileRepo.assign cu.username
            ((e.fileRepo.filesOf cu.username).filesOfConst cu.username ++ [fr])
          some ({ e with userRepo := userRepo, fileRepo := fileRepo },
            if inp.usersSaved && inp.filesSaved then UploadMsg.uploaded
            else UploadMsg.failedToSave)

/-- The file-size prompt with the `double` sum explicit: `fl` gives the double that holds
a sum whose exact value is its argument, so `newTotal` is `fl (usedStorage + sizeMB)`.
The sizes typed are finite doubles (`nan` and `inf` are outside the model). -/
def readFileSizeFl (fl : ℚ → ℚ) (cu : User) : List (Option ℚ) → Option SizePrompt
  | [] => none
  | none :: rest => readFileSizeFl fl cu rest
  | some sizeMB :: rest =>
    if sizeMB ≤ 0 then readFileSizeFl fl cu rest
    else if fl (cu.usedStorage + sizeMB) > cu.storageLimit then some SizePrompt.limitExceeded
    else some (SizePrompt.accepted sizeMB)

/-- The run `uploadFile` with the `double` arithmetic explicit: the limit check compares
`newTotal = fl (usedStorage + sizeMB)` and `usedStorage += sizeMB` stores the same double.
The machine computes `fl = roundDouble`; `uploadFile` above is the case of exact sums,
`fl = id`. -/
def uploadFileFl (fl : ℚ → ℚ) (e : CloudEngine) (inp : UploadInput) :
    Option (CloudEngine × UploadMsg) :=
  match e.currentUser with
  | none => some (e, UploadMsg.notLoggedIn)
  | some username =>
    match e.userRepo.find username with
    | none => some (e, UploadMsg.notLoggedIn)
    | some cu =>
      match readFileName inp.names with
      | none => none
      | some name =>
        match readFileSizeFl fl cu inp.sizes with
        | none => none
        | some SizePrompt.limitExceeded => some (e, UploadMsg.storageLimitExceeded)
        | some (SizePrompt.accepted sizeMB) =>
          let fr : FileRecord :=
            { id := inp.fileId
              name := name
              owner := cu.username
              region := regionOfChoice inp.regionChoice
              type := detectFileType name
              uploadDate := inp.uploadDate
              sizeMB := sizeMB
              description := inp.description
              isPublic := inp.makePublic = 'Y' ∨ inp.makePublic = 'y'
              encryptedAtRest := inp.encrypt = 'Y' ∨ inp.encrypt = 'y' }
          let userRepo := e.userRepo.modify username
            (fun u => { u with usedStorage := fl (u.usedStorage + sizeMB) })
          let fileRepo := e.fileRepo.assign cu.username
            ((e.fileRepo.filesOf cu.username).filesOfConst cu.username ++ [fr])
          some ({ e with userRepo := userRepo, fileRepo := fileRepo },
            if inp.usersSaved && inp.filesSaved then UploadMsg.uploaded
            else UploadMsg.failedToSave)

/-- Console and environment inputs of one run of `deleteFile`. -/
structure DeleteInput where
  n : Int
  conf : String
  usersSaved : Bool
  filesSaved : Bool

inductive DeleteMsg where
  | notLoggedIn
  | noFiles
  | cancelled
  | deleted
  | failedToUpdate
  deriving DecidableEq, Repr

/-- The engine after `deleteFile` and the last message printed.  `touched` is the file
repository after the call `filesOf(currentUser->username)`; the index `n - 1` is inside
the list once the range check has passed. -/
def deleteFile (e : CloudEngine) (inp : DeleteInput) : CloudEngine × DeleteMsg :=
  match e.currentUser with
  | none => (e, DeleteMsg.notLoggedIn)
  | some username =>
    let touched := e.fileRepo.filesOf username
    let files := touched.filesOfConst username
    if files.isEmpty then
      ({ e with fileRepo := touched }, DeleteMsg.noFiles)
    else if inp.n ≤ 0 ∨ inp.n > (files.length : Int) then
      ({ e with fileRepo := touched }, DeleteMsg.cancelled)
    else
      match files[(inp.n - 1).toNat]? with
      | none => ({ e with fileRepo := touched }, DeleteMsg.cancelled)
      | some fr =>
        if inp.conf ≠ "YES" then
          ({ e with fileRepo := touched }, DeleteMsg.cancelled)
        else
          let userRepo := e.userRepo.modify username
            (fun u => { u with usedStorage := u.usedStorage - fr.sizeMB })
          let fileRepo := touched.assign username (files.eraseIdx (inp.n - 1).toNat)
          ({ e with userRepo := userRepo, fileRepo := fileRepo },
            if inp.usersSaved && inp.filesSaved then DeleteMsg.deleted
            else DeleteMsg.failedToUpdate)

/-! ### Sequences of file operations -/

inductive FileOp where
  | upload (inp : UploadInput)
  | delete (inp : DeleteInput)

/-- The prompts of the operation end: for an upload some name typed is not empty and some
size typed parses and is positive. -/
def FileOp.promptsEnd : FileOp → Prop
  | FileOp.upload inp => (∃ n ∈ inp.names, n ≠ "") ∧ (∃ s, some s ∈ inp.sizes ∧ 0 < s)
  | FileOp.delete _ => True

/-- The state change of `showProfile`: the answer `c = 1` toggles MFA. -/
def showProfile (e : CloudEngine) (c : Int) : CloudEngine :=
  match e.currentUser with
  | none => e
  | some username =>
    if c = 1 then
      { e with
        userRepo := (e.userRepo.modify username (fun u => { u with mfaEnabled := !u.mfaEnabled })) }
    else e

inductive UpgradeMsg where
  | notLoggedIn
  | alreadyPremium
  | adminsHaveMax
  | cancelled
  | nowPremium
  | failedToSave
  deriving DecidableEq, Repr

/-- The engine after `upgradeAccount` and the message printed; `conf` is the line typed
at the confirmation prompt and `saved` the result of `userRepo.save()`. -/
def upgradeAccount (e : CloudEngine) (conf : String) (saved : Bool) :
    CloudEngine × UpgradeMsg :=
  match e.currentUser with
  | none => (e, UpgradeMsg.notLoggedIn)
  | some username =>
    match e.userRepo.find username with
    | none => (e, UpgradeMsg.notLoggedIn)
    | some cu =>
      if cu.role = UserRole.PREMIUM_USER then (e, UpgradeMsg.alreadyPremium)
      else if cu.role = UserRole.ADMIN then (e, UpgradeMsg.adminsHaveMax)
      else if conf ≠ "YES" then (e, UpgradeMsg.cancelled)
      else
        ({ e with
            userRepo := (e.userRepo.modify username
              (fun u => { u with role := UserRole.PREMIUM_USER })) },
          if saved then UpgradeMsg.nowPremium else UpgradeMsg.failedToSave)

def isAdmin (e : CloudEngine) : Bool :=
  match e.current with
  | none => false
  | some cu => cu.role = UserRole.ADMIN

inductive AdminMsg where
  | adminOnly
  | userNotFound
  | userUnlocked
  deriving DecidableEq, Repr

def adminUnlockUser (e : CloudEngine) (name : String) : CloudEngine × AdminMsg :=
  if !e.isAdmin then (e, AdminMsg.adminOnly)
  else
    match e.userRepo.find name with
    | none => (e, AdminMsg.userNotFound)
    | some _ =>
      ({ e with
          userRepo := (e.userRepo.modify name
            (fun u => { u with isLocked := false, failedLogins := 0 })) },
        AdminMsg.userUnlocked)

/-! ### Sequences of operations -/

/-- One call of an engine operation with the inputs it reads. -/
inductive Op where
  | login (inp : LoginInput)
  | logout
  | showProfile (c : Int)
  | uploadFile (inp : UploadInput)
  | deleteFile (inp : DeleteInput)
  | upgradeAccount (conf : String) (saved : Bool)
  | adminUnlockUser (name : String)

def step (sha256 : String → String) (e : CloudEngine) : Op → Option CloudEngine
  | Op.login inp => some (login sha256 e inp).engine
  | Op.logout => some (logout e)
  | Op.showProfile c => some (showProfile e c)
  | Op.uploadFile inp => (uploadFile e inp).map Prod.fst
  | Op.deleteFile inp => some (deleteFile e inp).1
  | Op.upgradeAccount conf saved => some (upgradeAccount e conf saved).1
  | Op.adminUnlockUser name => some (adminUnlockUser e name).1

def run (sha256 : String → String) (e : CloudEngine) : List Op → Option CloudEngine
  | [] => some e
  | op :: ops =>
    match step sha256 e op with
    | none => none
    | some e1 => run sha256 e1 ops

/-- The prompts of the operation end (only `uploadFile` repeats a prompt). -/
def Op.promptsEnd : Op → Prop
  | Op.uploadFile inp => (FileOp.upload inp).promptsEnd
  | _ => True

/-- The lockout fields of an account are consistent: between 0 and 5 failed logins, and
locked exactly when the count has reached 5. -/
def LockoutOK (u : User) : Prop :=
  0 ≤ u.failedLogins ∧ u.failedLogins ≤ Config.MAX_FAILED_LOGINS ∧
  (u.isLocked = true ↔ Config.MAX_FAILED_LOGINS ≤ u.failedLogins)

/-- The ways in which operation `op`, run on engine `e`, may change the lockout fields of
the account `n` from those of `u` to those of `u1`: not at all; a count of one more
failure, by a login as `n` with a wrong password while `u` is active and unlocked; a reset,
by a login as `n` that succeeds or by an admin unlock of `n`. -/
def LockoutChange (sha256 : String → String) (e : CloudEngine) (op : Op) (n : String)
    (u u1 : User) : Prop :=
  (u1.failedLogins = u.failedLogins ∧ u1.isLocked = u.isLocked) ∨
  ((∃ inp, op = Op.login inp ∧ inp.username = n ∧
      sha256 (u.salt ++ inp.password) ≠ u.passwordHash) ∧
    u.isActive = true ∧ u.isLocked = false ∧
    u1.failedLogins = u.failedLogins + 1 ∧
    (u1.isLocked = true ↔ Config.MAX_FAILED_LOGINS ≤ u.failedLogins + 1)) ∨
  (((∃ inp, op = Op.login inp ∧ inp.username = n ∧ (login sha256 e inp).ok = true) ∨
      (op = Op.adminUnlockUser n ∧ e.isAdmin = true)) ∧
    u1.failedLogins = 0 ∧ u1.isLocked = false)

/-! ### File type by extension, in the words of the specification -/

def documentExtensions : List String := ["txt", "pdf", "doc", "docx", "xlsx", "pptx"]

def imageExtensions : List String := ["jpg", "jpeg", "png", "gif", "bmp"]

def videoExtensions : List String := ["mp4", "avi", "mov", "wmv", "mkv"]

def audioExtensions : List String := ["mp3", "wav", "flac", "aac"]

/-- Follows the words of the specification, not the source: the type of an extension is
the list among the four that holds it, and `OTHER` when none does. -/
def typeOfExtension (ext : String) : FileType :=
  if ext ∈ documentExtensions then FileType.DOCUMENT
  else if ext ∈ imageExtensions then FileType.IMAGE
  else if ext ∈ videoExtensions then FileType.VIDEO
  else if ext ∈ audioExtensions then FileType.AUDIO
  else FileType.OTHER

/-! ### Operations together with the files on disk -/

/-- The condition `userRepo.save() && fileRepo.saveUserFiles(username)` at the end of
`uploadFile` and `deleteFile`: the engine and the disk after it, and its value.
`usersOpen` and `filesOpen` tell whether the two output files open; the file list is
written only when the account table was. -/
def persistBoth (e : CloudEngine) (username : String) (d : Disk)
    (usersOpen filesOpen : Bool) : CloudEngine × Disk × Bool :=
  match e.userRepo.save d usersOpen with
  | (d1, false) => (e, d1, false)
  | (d1, true) =>
    let r := e.fileRepo.saveUserFiles username d1 filesOpen
    ({ e with fileRepo := r.1 }, r.2.1, r.2.2)

/-- The run `uploadFile` together with the files on disk, with the `double` sum
`fl (usedStorage + sizeMB)` as in `uploadFileFl`; `inp.usersSaved` and `inp.filesSaved`
tell whether the two output files open. -/
def uploadFileStored (fl : ℚ → ℚ) (e : CloudEngine) (d : Disk) (inp : UploadInput) :
    Option (CloudEngine × Disk × UploadMsg) :=
  match uploadFileFl fl e inp with
  | none => none
  | some (e1, msg) =>
    match e.currentUser with
    | none => some (e1, d, msg)
    | some username =>
      if msg = UploadMsg.uploaded ∨ msg = UploadMsg.failedToSave then
        let r := persistBoth e1 username d inp.usersSaved inp.filesSaved
        some (r.1, r.2.1, if r.2.2 then UploadMsg.uploaded else UploadMsg.failedToSave)
      else some (e1, d, msg)

/-- The run `login` against the files on disk.  Up to the assignment `currentUser = u`
the run is `login` with no data file read; on the success path
`fileRepo.loadUserFiles(currentUser->username)` then reads the data file of the user (the
name typed, under which `find` returned the account), and a number conversion that throws
there is not caught by `login` nor by `main`: `login` does not return (`none`).
`userRepo.save()` before it writes the account table, not the data file, and what it
returns is not read.  The field `userFile` of the input is not used. -/
def loginAt (sha256 : String → String) (e : CloudEngine) (d : Disk) (inp : LoginInput) :
    Option LoginResult :=
  let r := login sha256 e { inp with userFile := none }
  if r.ok then
    match r.engine.fileRepo.loadUserFilesAt inp.username d with
    | none => none
    | some fileRepo => some { r with engine := { r.engine with fileRepo := fileRepo } }
  else some r

end CloudEngine

/-! ## Sample data -/

namespace Sample

def alice : User :=
  { username := "alice", salt := "s1", passwordHash := "h1", fullName := "Alice A",
    age := 30, gender := "F", role := UserRole.FREE_USER, usedStorage := 1020,
    registrationDate := 1000, isActive := true, failedLogins := 0, isLocked := false,
    lastLoginTime := 0, mfaEnabled := false }

def bob : User :=
  { username := "bob", salt := "s2", passwordHash := "h2", fullName := "Bob B",
    age := 45, gender := "M", role := UserRole.ADMIN, usedStorage := 0,
    registrationDate := 2000, isActive := true, failedLogins := 0, isLocked := false,
    lastLoginTime := 0, mfaEnabled := false }

def archive : FileRecord :=
  { id := "file_1", name := "archive.zip", owner := "alice", region := Region.GLOBAL,
    type := FileType.OTHER, uploadDate := "2024-01-01 10:00:00", sizeMB := 1020,
    description := "", isPublic := false, encryptedAtRest := false }

def notes : FileRecord :=
  { id := "file_2", name := "notes.txt", owner := "alice", region := Region.EUROPE,
    type := FileType.DOCUMENT, uploadDate := "2024-01-02 10:00:00", sizeMB := 4,
    description := "", isPublic := false, encryptedAtRest := true }

/-- Engine with `alice` logged in, 1020 MB used by one record. -/
def engine : CloudEngine :=
  { userRepo := ⟨[alice, bob]⟩
    fileRepo := ⟨[("alice", [archive])]⟩
    currentUser := some "alice" }

/-- Engine with `alice` logged in at the limit: 1024 MB used by two records. -/
def fullEngine : CloudEngine :=
  { userRepo := ⟨[{ alice with usedStorage := 1024 }, bob]⟩
    fileRepo := ⟨[("alice", [archive, notes])]⟩
    currentUser := some "alice" }

def delete (n : Int) (conf : String) : CloudEngine.DeleteInput :=
  { n := n, conf := conf, usersSaved := true, filesSaved := true }

def upload (size : ℚ) : CloudEngine.UploadInput :=
  { fileId := "file_2", names := ["", "notes.txt"], sizes := [none, some 0, some size],
    regionChoice := 2, description := "", makePublic := 'n', encrypt := 'y',
    uploadDate := "2024-01-02 10:00:00", usersSaved := true, filesSaved := true }

/-- An upload of 4 MB, a confirmed delete of record 2, an upload of 5 MB and a confirmed
delete of record 1. -/
def ops : List CloudEngine.FileOp :=
  [CloudEngine.FileOp.upload (upload 4), CloudEngine.FileOp.delete (delete 2 "YES"),
   CloudEngine.FileOp.upload (upload 5), CloudEngine.FileOp.delete (delete 1 "YES")]

/-- A stand-in for the digest function. -/
def digest (s : String) : String := "sha:" ++ s

def empty : CloudEngine :=
  { userRepo := ⟨[]⟩, fileRepo := ⟨[]⟩, currentUser := none }

/-- Registration of `carol` with the password `Password1`, after some rejected answers. -/
def registration : CloudEngine.RegisterInput :=
  { usernames := ["ca", "carol"], passwords := ["short", "Password1", "Password1"],
    salt := "00ff", fullName := "Carol C", ages := [none, some 0, some 30],
    genders := ["x", "F"], now := 1000, saved := true }

def carol : User :=
  { username := "carol", salt := "00ff", passwordHash := "sha:00ffPassword1",
    fullName := "Carol C", age := 30, gender := "F", role := UserRole.FREE_USER,
    usedStorage := 0, registrationDate := 1000, isActive := true, failedLogins := 0,
    isLocked := false, lastLoginTime := 0, mfaEnabled := false }

/-- The engine after `registration` on the empty engine. -/
def registered : CloudEngine :=
  { userRepo := ⟨[carol]⟩, fileRepo := ⟨[]⟩, currentUser := none }

/-- The engine `registered` with MFA enabled for `carol`. -/
def registeredMfa : CloudEngine :=
  { userRepo := ⟨[{ carol with mfaEnabled := true }]⟩, fileRepo := ⟨[]⟩, currentUser := none }

/-- A login attempt as `carol`; the code issued is `123456`. -/
def attempt (password : String) (mfaInput : String) : CloudEngine.LoginInput :=
  { username := "carol", password := password, mfaCode := "123456", mfaInput := mfaInput,
    now := 2000, userFile := none }

def dave : User :=
  { username := "dave", salt := "11ee", passwordHash := "sha:11eeAdminPass9",
    fullName := "Dave D", age := 50, gender := "M", role := UserRole.ADMIN,
    usedStorage := 0, registrationDate := 900, isActive := true, failedLogins := 0,
    isLocked := false, lastLoginTime := 0, mfaEnabled := false }

/-- Engine with the fresh accounts `carol` (Basic) and `dave` (Admin), nobody logged in. -/
def office : CloudEngine :=
  { userRepo := ⟨[carol, dave]⟩, fileRepo := ⟨[]⟩, currentUser := none }

def daveLogin : CloudEngine.LoginInput :=
  { username := "dave", password := "AdminPass9", mfaCode := "654321", mfaInput := "",
    now := 3000, userFile := none }

/-- Five wrong passwords for `carol`, an admin login and unlock, a logout, then `carol`
logs in, enables MFA, uploads, deletes and upgrades. -/
def session : List CloudEngine.Op :=
  [CloudEngine.Op.login (attempt "a" ""), CloudEngine.Op.login (attempt "b" ""),
   CloudEngine.Op.login (attempt "c" ""), CloudEngine.Op.login (attempt "d" ""),
   CloudEngine.Op.login (attempt "e" ""), CloudEngine.Op.login daveLogin,
   CloudEngine.Op.adminUnlockUser "carol", CloudEngine.Op.logout,
   CloudEngine.Op.login (attempt "Password1" ""), CloudEngine.Op.showProfile 1,
   CloudEngine.Op.uploadFile (upload 4), CloudEngine.Op.deleteFile (delete 1 "YES"),
   CloudEngine.Op.upgradeAccount "YES" true]

/-- Engine in which `carol` is deactivated and locked. -/
def retired : CloudEngine :=
  { userRepo := ⟨[{ carol with isActive := false, isLocked := true, failedLogins := 5 }, dave]⟩
    fileRepo := ⟨[]⟩
    currentUser := none }

/-- Engine `office` with the admin `dave` logged in and `carol` locked. -/
def adminOffice : CloudEngine :=
  { userRepo := ⟨[{ carol with isLocked := true, failedLogins := 5 }, dave]⟩
    fileRepo := ⟨[]⟩
    currentUser := some "dave" }

/-- The disk after both stores of `engine` have been written. -/
def savedDisk : Disk :=
  (CloudEngine.persistBoth engine "alice" ⟨[]⟩ true true).2.1

/-- An upload of 4 MB during which the account table is written and the data file of the
user does not open. -/
def halfSavedUpload : CloudEngine.UploadInput :=
  { upload 4 with usersSaved := true, filesSaved := false }

/-- An account with 1020.001 MB used: `alice` after an upload of 0.001 MB. -/
def aliceAfterSmallUpload : User :=
  { alice with usedStorage := 1020001 / 1000 }

/-- A record of 1234.5678 MB. -/
def bigRecord : FileRecord :=
  { archive with sizeMB := 12345678 / 10000 }

/-- The engine after `carol` has logged in on `registered`. -/
def carolSession : CloudEngine :=
  (CloudEngine.login digest registered (attempt "Password1" "")).engine

/-- An upload of 1 MB under the file name `a|b.txt`, both files written. -/
def pipeUpload : CloudEngine.UploadInput :=
  { upload 1 with names := ["a|b.txt"] }

/-- The engine after `carol` has uploaded `a|b.txt` and logged out. -/
def afterPipeUpload : CloudEngine :=
  match CloudEngine.uploadFileStored roundDouble carolSession ⟨[]⟩ pipeUpload with
  | some r => CloudEngine.logout r.1
  | none => carolSession

/-- The disk after `carol` has uploaded `a|b.txt`. -/
def pipeDisk : Disk :=
  match CloudEngine.uploadFileStored roundDouble carolSession ⟨[]⟩ pipeUpload with
  | some r => r.2.1
  | none => ⟨[]⟩

/-- The engine after `carol` has uploaded `a|b.txt`, enabled MFA and logged out. -/
def afterPipeUploadMfa : CloudEngine :=
  match CloudEngine.uploadFileStored roundDouble carolSession ⟨[]⟩ pipeUpload with
  | some r => CloudEngine.logout (CloudEngine.showProfile r.1 1)
  | none => carolSession

end Sample

/-! # Theorems -/

section ListLemmas

variable {α : Type}

theorem find?_modifyFirst_same (p : α → Bool) (f : α → α)
    (hf : ∀ x, p x = true → p (f x) = true) (l : List α) :
    (modifyFirst p f l).find? p = (l.find? p).map f := by
  induction l with
  | nil => rfl
  | cons x xs ih =>
    by_cases hx : p x = true
    · simp [modifyFirst, hx, List.find?_cons, hf x hx]
    · simp [modifyFirst, hx, List.find?_cons, ih]

theorem find?_modifyFirst_other (p q : α → Bool) (f : α → α)
    (h : ∀ x, p x = true → q x = false ∧ q (f x) = false) (l : List α) :
    (modifyFirst p f l).find? q = l.find? q := by
  induction l with
  | nil => rfl
  | cons x xs ih =>
    by_cases hx : p x = true
    · simp [modifyFirst, hx, List.find?_cons, (h x hx).1, (h x hx).2]
    · by_cases hq : q x = true
      · simp [modifyFirst, hx, List.find?_cons, hq]
      · simp [modifyFirst, hx, List.find?_cons, hq, ih]

theorem find?_append_singleton_of_none (q : α → Bool) (l : List α) (a : α)
    (h : l.find? q = none) : (l ++ [a]).find? q = if q a then some a else none := by
  rw [List.find?_append, h]
  simp [List.find?_cons]
  cases q a <;> simp

end ListLemmas

namespace UserRepository

theorem find_username (r : UserRepository) (n : String) (u : User)
    (h : r.find n = some u) : u.username = n := by
  have := List.find?_some h
  simpa using this

theorem find_modify_same (r : UserRepository) (n : String) (f : User → User)
    (hf : ∀ u, (f u).username = u.username) :
    (r.modify n f).find n = (r.find n).map f := by
  unfold modify find
  exact find?_modifyFirst_same _ f (fun x hx => by simpa [hf x] using hx) r.users

theorem find_modify_other (r : UserRepository) (n m : String) (f : User → User)
    (hf : ∀ u, (f u).username = u.username) (hne : m ≠ n) :
    (r.modify n f).find m = r.find m := by
  unfold modify find
  apply find?_modifyFirst_other
  intro x hx
  have hx1 : x.username = n := by simpa using hx
  have hx2 : ¬ x.username = m := fun hh => hne (hh.symm.trans hx1)
  simp [hf x, hx2]

theorem find_add_same (r : UserRepository) (u : User) :
    (r.add u).find u.username = some u := by
  unfold add
  by_cases h : r.existsUser u.username = true
  · rw [if_pos h]
    unfold find
    dsimp only
    rw [find?_modifyFirst_same (fun x => x.username == u.username) (fun _ => u)
      (fun _ _ => by simp)]
    unfold existsUser find at h
    cases hh : r.users.find? (fun x => x.username == u.username) with
    | none => simp [hh] at h
    | some x => rfl
  · rw [if_neg h]
    unfold existsUser find at h
    have hnone : r.users.find? (fun x => x.username == u.username) = none := by
      cases hh : r.users.find? (fun x => x.username == u.username) with
      | none => rfl
      | some x => simp [hh] at h
    unfold find
    dsimp only
    rw [find?_append_singleton_of_none _ _ _ hnone]
    simp

end UserRepository

namespace FileRepository

theorem filesOfConst_filesOf (r : FileRepository) (n m : String) :
    (r.filesOf n).filesOfConst m = r.filesOfConst m := by
  unfold filesOf
  by_cases h : (r.filesByUser.find? (fun p => p.1 == n)).isSome = true
  · rw [if_pos h]
  · rw [if_neg h]
    unfold filesOfConst
    rw [List.find?_append]
    cases hm : r.filesByUser.find? (fun p => p.1 == m) with
    | some p => simp
    | none =>
      by_cases hnm : n = m
      · simp [List.find?_cons, hnm]
      · simp [List.find?_cons, hnm]

theorem find?_filesOf_isSome (r : FileRepository) (n : String) :
    ((r.filesOf n).filesByUser.find? (fun p => p.1 == n)).isSome = true := by
  unfold filesOf
  by_cases h : (r.filesByUser.find? (fun p => p.1 == n)).isSome = true
  · rw [if_pos h]
    exact h
  · rw [if_neg h]
    have hnone : r.filesByUser.find? (fun p => p.1 == n) = none := by
      cases hh : r.filesByUser.find? (fun p => p.1 == n) with
      | none => rfl
      | some p => simp [hh] at h
    rw [find?_append_singleton_of_none _ _ _ hnone]
    simp

theorem filesOfConst_assign_same (r : FileRepository) (n : String) (fs : List FileRecord) :
    (r.assign n fs).filesOfConst n = fs := by
  have hsome := find?_filesOf_isSome r n
  unfold assign filesOfConst
  dsimp only
  rw [find?_modifyFirst_same (fun p => p.1 == n) (fun p => (p.1, fs)) (fun x hx => by simpa using hx)]
  cases hh : (r.filesOf n).filesByUser.find? (fun p => p.1 == n) with
  | none => simp [hh] at hsome
  | some p => simp

theorem filesOf_filesOf (r : FileRepository) (n : String) :
    (r.filesOf n).filesOf n = r.filesOf n := by
  have h := find?_filesOf_isSome r n
  generalize r.filesOf n = r1 at h
  unfold filesOf
  rw [if_pos h]

end FileRepository

namespace CloudEngine

/-! ## Prompts -/

theorem readFileName_of_mem (names : List String) (h : ∃ n ∈ names, n ≠ "") :
    ∃ name, readFileName names = some name ∧ name ≠ "" := by
  induction names with
  | nil => simp at h
  | cons x xs ih =>
    by_cases hx : x = ""
    · obtain ⟨n, hn, hne⟩ := h
      have hn2 : n ∈ xs := by
        rcases List.mem_cons.mp hn with h1 | h1
        · exact absurd (h1.trans hx) hne
        · exact h1
      obtain ⟨name, h1, h2⟩ := ih ⟨n, hn2, hne⟩
      exact ⟨name, by simp [readFileName, hx, h1], h2⟩
    · exact ⟨x, by simp [readFileName, hx], hx⟩

theorem readFileSizeFl_append (fl : ℚ → ℚ) (cu : User) (pre l : List (Option ℚ))
    (hpre : ∀ x ∈ pre, ∀ s, x = some s → s ≤ 0) :
    readFileSizeFl fl cu (pre ++ l) = readFileSizeFl fl cu l := by
  induction pre with
  | nil => rfl
  | cons x xs ih =>
    have ih1 := ih (fun y hy => hpre y (List.mem_cons_of_mem x hy))
    cases x with
    | none => simpa [readFileSizeFl] using ih1
    | some s =>
      have hs : s ≤ 0 := hpre (some s) (List.mem_cons_self _ xs) s rfl
      simpa [readFileSizeFl, hs] using ih1

theorem readFileSizeFl_id (cu : User) (l : List (Option ℚ)) :
    readFileSizeFl id cu l = readFileSize cu l := by
  induction l with
  | nil => rfl
  | cons x xs ih =>
    cases x with
    | none => simpa [readFileSizeFl, readFileSize] using ih
    | some s => simp [readFileSizeFl, readFileSize, ih]

theorem uploadFileFl_id (e : CloudEngine) (inp : UploadInput) :
    uploadFileFl id e inp = uploadFile e inp := by
  unfold uploadFileFl uploadFile
  simp only [readFileSizeFl_id, id]

theorem getElem?_of_index (L : List FileRecord) (n : Int) (hlo : 1 ≤ n)
    (hhi : n ≤ (L.length : Int)) : ∃ fr, L[(n - 1).toNat]? = some fr := by
  have hlt : (n - 1).toNat < L.length := by omega
  exact ⟨L[(n - 1).toNat], List.getElem?_eq_getElem hlt⟩

theorem deleteFile_done (e : CloudEngine) (inp : DeleteInput) (username : String)
    (fr : FileRecord) (hcur : e.currentUser = some username)
    (hlo : 1 ≤ inp.n) (hhi : inp.n ≤ ((e.fileRepo.filesOfConst username).length : Int))
    (hfr : (e.fileRepo.filesOfConst username)[(inp.n - 1).toNat]? = some fr)
    (hconf : inp.conf = "YES") :
    deleteFile e inp =
      ({ e with
          userRepo := e.userRepo.modify username
            (fun x => { x with usedStorage := x.usedStorage - fr.sizeMB })
          fileRepo := (e.fileRepo.filesOf username).assign username
            ((e.fileRepo.filesOfConst username).eraseIdx (inp.n - 1).toNat) },
        if inp.usersSaved && inp.filesSaved then DeleteMsg.deleted
        else DeleteMsg.failedToUpdate) := by
  have hne : (e.fileRepo.filesOfConst username).isEmpty = false := by
    cases hL : e.fileRepo.filesOfConst username with
    | nil => rw [hL] at hhi; simp at hhi; omega
    | cons a l => rfl
  have hrange : ¬ (inp.n ≤ 0 ∨ inp.n > ((e.fileRepo.filesOfConst username).length : Int)) := by
    omega
  unfold deleteFile
  simp only [hcur, FileRepository.filesOfConst_filesOf, hne, hrange, hfr, hconf]
  simp

theorem deleteFile_cancelled (e : CloudEngine) (inp : DeleteInput) (username : String)
    (hcur : e.currentUser = some username)
    (h : inp.n ≤ 0 ∨ inp.n > ((e.fileRepo.filesOfConst username).length : Int) ∨
      inp.conf ≠ "YES") :
    ∃ msg, deleteFile e inp = ({ e with fileRepo := e.fileRepo.filesOf username }, msg) ∧
      (msg = DeleteMsg.noFiles ∨ msg = DeleteMsg.cancelled) := by
  unfold deleteFile
  simp only [hcur, FileRepository.filesOfConst_filesOf]
  by_cases hne : (e.fileRepo.filesOfConst username).isEmpty = true
  · exact ⟨DeleteMsg.noFiles, by simp [hne], Or.inl rfl⟩
  · by_cases hrange : inp.n ≤ 0 ∨ inp.n > ((e.fileRepo.filesOfConst username).length : Int)
    · exact ⟨DeleteMsg.cancelled, by simp only [hne, hrange]; simp, Or.inr rfl⟩
    · have hconf : inp.conf ≠ "YES" := by
        rcases h with h | h | h
        · exact absurd (Or.inl h) hrange
        · exact absurd (Or.inr h) hrange
        · exact h
      refine ⟨DeleteMsg.cancelled, ?_, Or.inr rfl⟩
      simp only [hne, hrange]
      cases (e.fileRepo.filesOfConst username)[(inp.n - 1).toNat]? <;> simp [hconf]

/-- C5, counterexample.  `alice` is logged in with one record; `deleteFile` with the valid
index 1 and the answer `no` at the confirmation prompt leaves the record in the list. -/
theorem delete_by_index_counterexample :
    Sample.engine.currentUser = some "alice" ∧
    Sample.engine.fileRepo.filesOfConst "alice" = [Sample.archive] ∧
    (deleteFile Sample.engine (Sample.delete 1 "no")).1.fileRepo.filesOfConst "alice" =
      [Sample.archive] ∧
    [Sample.archive] ≠ List.eraseIdx [Sample.archive] 0 := by
  refine ⟨rfl, rfl, ?_, by simp⟩
  obtain ⟨msg, h, _⟩ := deleteFile_cancelled Sample.engine (Sample.delete 1 "no") "alice" rfl
    (Or.inr (Or.inr (by decide)))
  rw [h]
  exact (FileRepository.filesOfConst_filesOf Sample.engine.fileRepo "alice" "alice").trans rfl

/-- C5, amended.  For a logged-in account with file list `L` and a caller index `n`:
if `1 ≤ n ≤ length L` and the confirmation typed is `YES`, the file list becomes `L`
with exactly its `n`-th record removed, the others in their order; if `n ≤ 0`,
`n > length L` or the confirmation is anything else, the run is reported as cancelled
(or as having no files) and neither the file list, nor any account, nor the session
changes. -/
theorem delete_by_index (e : CloudEngine) (inp : DeleteInput) (username : String)
    (hcur : e.currentUser = some username) :
    (1 ≤ inp.n → inp.n ≤ ((e.fileRepo.filesOfConst username).length : Int) →
      inp.conf = "YES" →
      (deleteFile e inp).1.fileRepo.filesOfConst username =
        (e.fileRepo.filesOfConst username).take (inp.n - 1).toNat ++
          (e.fileRepo.filesOfConst username).drop inp.n.toNat) ∧
    (inp.n ≤ 0 ∨ inp.n > ((e.fileRepo.filesOfConst username).length : Int) ∨
        inp.conf ≠ "YES" →
      ((deleteFile e inp).2 = DeleteMsg.cancelled ∨ (deleteFile e inp).2 = DeleteMsg.noFiles) ∧
      (deleteFile e inp).1.fileRepo.filesOfConst username = e.fileRepo.filesOfConst username ∧
      (deleteFile e inp).1.userRepo = e.userRepo ∧
      (deleteFile e inp).1.currentUser = e.currentUser) := by
  constructor
  · intro hlo hhi hconf
    obtain ⟨fr, hfr⟩ := getElem?_of_index _ inp.n hlo hhi
    rw [deleteFile_done e inp username fr hcur hlo hhi hfr hconf]
    dsimp only
    rw [FileRepository.filesOfConst_assign_same, List.eraseIdx_eq_take_drop_succ]
    have : (inp.n - 1).toNat + 1 = inp.n.toNat := by omega
    rw [this]
  · intro h
    obtain ⟨msg, hd, hmsg⟩ := deleteFile_cancelled e inp username hcur h
    rw [hd]
    exact ⟨hmsg.symm, FileRepository.filesOfConst_filesOf _ _ _, rfl, rfl⟩

/-- Witness of C5 (amended): with two records, a confirmed delete of record 1 leaves the
second one, and a delete with index 3 changes nothing. -/
theorem delete_by_index_witness :
    (deleteFile Sample.fullEngine (Sample.delete 1 "YES")).1.fileRepo.filesOfConst "alice" =
      [Sample.notes] ∧
    (deleteFile Sample.fullEngine (Sample.delete 3 "YES")).1.fileRepo.filesOfConst "alice" =
      [Sample.archive, Sample.notes] :=
  ⟨(delete_by_index Sample.fullEngine (Sample.delete 1 "YES") "alice" rfl).1
      (by decide) (by decide) rfl,
    ((delete_by_index Sample.fullEngine (Sample.delete 3 "YES") "alice" rfl).2
      (Or.inr (Or.inl (by decide)))).2.1⟩

/-! ## Quota invariant -/

theorem readFileSize_isSome (cu : User) (l : List (Option ℚ))
    (h : ∃ s, some s ∈ l ∧ 0 < s) : (readFileSize cu l).isSome = true := by
  induction l with
  | nil => simp at h
  | cons x xs ih =>
    cases x with
    | none =>
      obtain ⟨s, hs, hpos⟩ := h
      have hs2 : some s ∈ xs := by simpa using hs
      simpa [readFileSize] using ih ⟨s, hs2, hpos⟩
    | some t =>
      by_cases ht : t ≤ 0
      · obtain ⟨s, hs, hpos⟩ := h
        have hs2 : some s ∈ xs := by
          rcases List.mem_cons.mp hs with h1 | h1
          · have : s = t := by simpa using h1
            rw [this] at hpos
            exact absurd hpos (not_lt.mpr ht)
          · exact h1
        simpa [readFileSize, ht] using ih ⟨s, hs2, hpos⟩
      · by_cases hq : cu.usedStorage + t > cu.storageLimit
        · simp [readFileSize, ht, hq]
        · simp [readFileSize, ht, hq]

theorem uploadFile_isSome (e : CloudEngine) (inp : UploadInput)
    (h : (FileOp.upload inp).promptsEnd) : (uploadFile e inp).isSome = true := by
  obtain ⟨hn, hs⟩ := h
  obtain ⟨name, hname, _⟩ := readFileName_of_mem inp.names hn
  cases hcur : e.currentUser with
  | none => simp only [uploadFile, hcur]; rfl
  | some username =>
    cases hfind : e.userRepo.find username with
    | none => simp only [uploadFile, hcur, hfind]; rfl
    | some cu =>
      have h2 := readFileSize_isSome cu inp.sizes hs
      cases hsz : readFileSize cu inp.sizes with
      | none => simp [hsz] at h2
      | some r =>
        cases r with
        | limitExceeded => simp only [uploadFile, hcur, hfind, hname, hsz]; rfl
        | accepted sizeMB => simp only [uploadFile, hcur, hfind, hname, hsz]; rfl

theorem login_locked (sha256 : String → String) (e : CloudEngine) (inp : LoginInput)
    (u : User) (hfind : e.userRepo.find inp.username = some u)
    (hact : u.isActive = true) (hlocked : u.isLocked = true) :
    login sha256 e inp =
      { engine := e, ok := false, msg := LoginMsg.locked
        audit := [(AuditEventType.LOGIN_FAIL, "User=" ++ inp.username ++ " reason=locked")] } := by
  unfold login
  simp [hfind, hact, hlocked]

theorem login_bad_password (sha256 : String → String) (e : CloudEngine) (inp : LoginInput)
    (u : User) (hfind : e.userRepo.find inp.username = some u)
    (hact : u.isActive = true) (hunl : u.isLocked = false)
    (hbad : sha256 (u.salt ++ inp.password) ≠ u.passwordHash) :
    (login sha256 e inp).ok = false ∧
    (login sha256 e inp).engine.currentUser = e.currentUser ∧
    (login sha256 e inp).engine.fileRepo = e.fileRepo ∧
    (login sha256 e inp).engine.userRepo = e.userRepo.modify inp.username
      (fun x => { x with
        failedLogins := x.failedLogins + 1
        isLocked := x.isLocked || decide (Config.MAX_FAILED_LOGINS ≤ u.failedLogins + 1) }) := by
  unfold login
  by_cases hk : u.failedLogins + 1 ≥ Config.MAX_FAILED_LOGINS
  · have hk2 : Config.MAX_FAILED_LOGINS ≤ u.failedLogins + 1 := hk
    simp [hfind, hact, hunl, hbad, hk2]
  · have hk2 : ¬ Config.MAX_FAILED_LOGINS ≤ u.failedLogins + 1 := hk
    simp [hfind, hact, hunl, hbad, hk2]

theorem login_mfa_failed (sha256 : String → String) (e : CloudEngine) (inp : LoginInput)
    (u : User) (hfind : e.userRepo.find inp.username = some u)
    (hact : u.isActive = true) (hunl : u.isLocked = false)
    (hgood : sha256 (u.salt ++ inp.password) = u.passwordHash)
    (hmfa : u.mfaEnabled = true) (hcode : inp.mfaInput ≠ inp.mfaCode) :
    login sha256 e inp =
      { engine := e, ok := false, msg := LoginMsg.invalidMfaCode
        audit :=
          [(AuditEventType.LOGIN_FAIL, "User=" ++ inp.username ++ " reason=mfa_failed")] } := by
  unfold login
  simp [hfind, hact, hunl, hgood, hmfa, hcode]

theorem login_success (sha256 : String → String) (e : CloudEngine) (inp : LoginInput)
    (u : User) (hfind : e.userRepo.find inp.username = some u)
    (hact : u.isActive = true) (hunl : u.isLocked = false)
    (hgood : sha256 (u.salt ++ inp.password) = u.passwordHash)
    (hmfa : u.mfaEnabled = false ∨ inp.mfaInput = inp.mfaCode) :
    login sha256 e inp =
      { engine :=
          { userRepo := e.userRepo.modify inp.username
              (fun x => { x with failedLogins := 0, isLocked := false, lastLoginTime := inp.now })
            fileRepo := e.fileRepo.loadUserFiles u.username inp.userFile
            currentUser := some inp.username }
        ok := true
        msg := LoginMsg.welcomeBack
        audit := [(AuditEventType.LOGIN_SUCCESS, "User=" ++ u.username)] } := by
  unfold login
  rcases hmfa with hmfa | hmfa
  · simp [hfind, hact, hunl, hgood, hmfa]
  · simp [hfind, hact, hunl, hgood, hmfa]

theorem registerUser_account (sha256 : String → String) (e : CloudEngine)
    (inp : RegisterInput) (e1 : CloudEngine) (ok : Bool)
    (h : registerUser sha256 e inp = some (e1, ok)) :
    ∃ u pwd, readUsername e.userRepo inp.usernames = some u.username ∧
      readPassword inp.passwords = some pwd ∧
      e1.userRepo.find u.username = some u ∧
      u.salt = inp.salt ∧ u.passwordHash = sha256 (inp.salt ++ pwd) ∧
      u.role = UserRole.FREE_USER ∧ u.usedStorage = 0 ∧ u.isActive = true ∧
      u.failedLogins = 0 ∧ u.isLocked = false ∧ u.mfaEnabled = false := by
  unfold registerUser at h
  cases h1 : readUsername e.userRepo inp.usernames with
  | none => simp [h1] at h
  | some username =>
    cases h2 : readPassword inp.passwords with
    | none => simp [h1, h2] at h
    | some pwd =>
      cases h3 : readAge inp.ages with
      | none => simp [h1, h2, h3] at h
      | some age =>
        cases h4 : readGender inp.genders with
        | none => simp [h1, h2, h3, h4] at h
        | some gender =>
          simp only [h1, h2, h3, h4, Option.some.injEq, Prod.mk.injEq] at h
          rw [← h.1]
          exact ⟨_, pwd, rfl, rfl, UserRepository.find_add_same e.userRepo _, rfl, rfl, rfl,
            rfl, rfl, rfl, rfl, rfl⟩

theorem Sample.registration_result :
    registerUser Sample.digest Sample.empty Sample.registration =
      some (Sample.registered, true) := by
  decide

theorem loginAll_wrong (sha256 : String → String) (name : String) (inps : List LoginInput) :
    ∀ (e : CloudEngine) (u : User), e.userRepo.find name = some u →
      u.isActive = true → u.isLocked = false →
      u.failedLogins + (inps.length : Int) ≤ Config.MAX_FAILED_LOGINS →
      (∀ i ∈ inps, i.username = name ∧ sha256 (u.salt ++ i.password) ≠ u.passwordHash) →
      (loginAll sha256 e inps).userRepo.find name =
        some { u with
          failedLogins := u.failedLogins + (inps.length : Int)
          isLocked := decide (0 < inps.length ∧
            Config.MAX_FAILED_LOGINS ≤ u.failedLogins + (inps.length : Int)) } := by
  induction inps with
  | nil =>
    intro e u hfind _ hunl _ _
    simp only [loginAll, List.length_nil, Nat.cast_zero, add_zero, lt_self_iff_false,
      false_and, decide_False]
    rw [hfind, ← hunl]
  | cons inp rest ih =>
    intro e u hfind hact hunl hlen hall
    obtain ⟨hname, hbad⟩ := hall inp (List.mem_cons_self inp rest)
    subst hname
    obtain ⟨_, _, _, h4⟩ := login_bad_password sha256 e inp u hfind hact hunl hbad
    have hf := UserRepository.find_modify_same e.userRepo inp.username
      (fun x => { x with
        failedLogins := x.failedLogins + 1
        isLocked := x.isLocked || decide (Config.MAX_FAILED_LOGINS ≤ u.failedLogins + 1) })
      (fun _ => rfl)
    rw [hfind, ← h4] at hf
    simp only [Option.map_some', hunl, Bool.false_or] at hf
    simp only [List.length_cons, Nat.cast_add, Nat.cast_one] at hlen
    cases rest with
    | nil =>
      simp only [loginAll, List.length_cons, List.length_nil, zero_add, Nat.cast_one,
        Nat.lt_one_iff, true_and]
      rw [hf]
    | cons inp2 rest2 =>
      have hunl1 : decide (Config.MAX_FAILED_LOGINS ≤ u.failedLogins + 1) = false := by
        simp only [List.length_cons, Nat.cast_add, Nat.cast_one] at hlen
        simp only [decide_eq_false_iff_not, not_le]
        have : (0 : Int) ≤ (rest2.length : Int) := Int.natCast_nonneg _
        omega
      have hrec := ih (login sha256 e inp).engine _ hf hact hunl1
        (by
          simp only [List.length_cons, Nat.cast_add, Nat.cast_one] at hlen ⊢
          omega)
        (fun i hi => hall i (List.mem_cons_of_mem _ hi))
      simp only [loginAll] at hrec ⊢
      rw [hrec]
      simp only [List.length_cons, Nat.cast_add, Nat.cast_one, Nat.zero_lt_succ, true_and,
        Option.some.injEq]
      have e1 : u.failedLogins + 1 + ((rest2.length : Int) + 1) =
          u.failedLogins + ((rest2.length : Int) + 1 + 1) := by ring
      rw [e1]

/-- C7. A registration that returns leaves an account that is active, unlocked and has
`failedLogins = 0`.  For an account with these fields, five consecutive wrong-password
login attempts leave the account locked with `failedLogins = 5`.  For a locked active
account every login attempt, whatever the password, returns `false` with the locked
message and the engine it was given: no session is set and neither `failedLogins` nor the
locked flag changes. -/
theorem lockout_after_five (sha256 : String → String) (e : CloudEngine) :
    (∀ (e0 : CloudEngine) (reg : RegisterInput) (ok : Bool),
      registerUser sha256 e0 reg = some (e, ok) →
      ∃ u, readUsername e0.userRepo reg.usernames = some u.username ∧
        e.userRepo.find u.username = some u ∧
        u.isActive = true ∧ u.isLocked = false ∧ u.failedLogins = 0) ∧
    (∀ (name : String) (u : User) (inps : List LoginInput),
      e.userRepo.find name = some u →
      u.isActive = true → u.isLocked = false → u.failedLogins = 0 →
      inps.length = 5 →
      (∀ i ∈ inps, i.username = name ∧ sha256 (u.salt ++ i.password) ≠ u.passwordHash) →
      (loginAll sha256 e inps).userRepo.find name =
        some { u with failedLogins := 5, isLocked := true }) ∧
    (∀ (inp : LoginInput) (u : User),
      e.userRepo.find inp.username = some u → u.isActive = true → u.isLocked = true →
      (login sha256 e inp).ok = false ∧ (login sha256 e inp).msg = LoginMsg.locked ∧
      (login sha256 e inp).engine = e) := by
  refine ⟨?_, ?_, ?_⟩
  · intro e0 reg ok hreg
    obtain ⟨u, _, h1, _, h3, _, _, _, _, h8, h9, h10, _⟩ :=
      registerUser_account sha256 e0 reg e ok hreg
    exact ⟨u, h1, h3, h8, h10, h9⟩
  · intro name u inps hfind hact hunl hzero hlen hall
    have h := loginAll_wrong sha256 name inps e u hfind hact hunl
      (by rw [hzero, hlen]; decide) hall
    rw [h, hzero, hlen]
    simp [Config.MAX_FAILED_LOGINS]
  · intro inp u hfind hact hlocked
    rw [login_locked sha256 e inp u hfind hact hlocked]
    exact ⟨rfl, rfl, rfl⟩

/-- Witness of C7: `carol` registers, types five wrong passwords and is locked; a sixth
attempt with the right password is refused and changes nothing. -/
theorem lockout_after_five_witness :
    registerUser Sample.digest Sample.empty Sample.registration =
      some (Sample.registered, true) ∧
    (loginAll Sample.digest Sample.registered
        [Sample.attempt "a" "", Sample.attempt "b" "", Sample.attempt "c" "",
         Sample.attempt "d" "", Sample.attempt "e" ""]).userRepo.find "carol" =
      some { Sample.carol with failedLogins := 5, isLocked := true } ∧
    (login Sample.digest
        { Sample.registered with
          userRepo := ⟨[{ Sample.carol with failedLogins := 5, isLocked := true }]⟩ }
        (Sample.attempt "Password1" "")).ok = false :=
  ⟨Sample.registration_result,
    (lockout_after_five Sample.digest Sample.registered).2.1 "carol" Sample.carol _
      rfl rfl rfl rfl rfl (by decide),
    ((lockout_after_five Sample.digest
        { Sample.registered with
          userRepo := ⟨[{ Sample.carol with failedLogins := 5, isLocked := true }]⟩ }).2.2
      (Sample.attempt "Password1" "")
      { Sample.carol with failedLogins := 5, isLocked := true } rfl rfl rfl).1⟩

/-- The success path of `login` once `loadUserFiles` has returned.  For a registered,
active, unlocked account with MFA disabled and a password `p` such that the digest of
`salt ++ p` equals the stored digest, `login` returns `true`, resets `failedLogins` to 0
whatever it was, and makes that account the current session of the engine.  Whether
`loadUserFiles` returns is the matter of `loginAt`. -/
theorem login_correct_password (sha256 : String → String) (e : CloudEngine)
    (inp : LoginInput) (u : User) (hfind : e.userRepo.find inp.username = some u)
    (hact : u.isActive = true) (hunl : u.isLocked = false) (hmfa : u.mfaEnabled = false)
    (hgood : sha256 (u.salt ++ inp.password) = u.passwordHash) :
    (login sha256 e inp).ok = true ∧
    (login sha256 e inp).engine.currentUser = some u.username ∧
    (login sha256 e inp).engine.isLoggedIn = true ∧
    (login sha256 e inp).engine.current =
      some { u with failedLogins := 0, isLocked := false, lastLoginTime := inp.now } ∧
    (∀ m, m ≠ inp.username →
      (login sha256 e inp).engine.userRepo.find m = e.userRepo.find m) := by
  have hun : u.username = inp.username := UserRepository.find_username _ _ _ hfind
  rw [login_success sha256 e inp u hfind hact hunl hgood (Or.inl hmfa)]
  have hf := UserRepository.find_modify_same e.userRepo inp.username
    (fun x => { x with failedLogins := 0, isLocked := false, lastLoginTime := inp.now })
    (fun _ => rfl)
  rw [hfind] at hf
  refine ⟨rfl, by rw [hun], rfl, ?_, ?_⟩
  · simp only [current]
    exact hf
  · intro m hm
    exact UserRepository.find_modify_other e.userRepo inp.username m _ (fun _ => rfl) hm

/-- An instance of `login_correct_password`: `carol` registers with `Password1` and logs
in with `Password1`, no data file on disk. -/
theorem login_correct_password_witness :
    registerUser Sample.digest Sample.empty Sample.registration =
      some (Sample.registered, true) ∧
    (login Sample.digest Sample.registered (Sample.attempt "Password1" "")).ok = true ∧
    (login Sample.digest Sample.registered (Sample.attempt "Password1" "")).engine.currentUser =
      some "carol" ∧
    (login Sample.digest Sample.registered (Sample.attempt "Password1" "")).engine.current =
      some { Sample.carol with failedLogins := 0, isLocked := false, lastLoginTime := 2000 } :=
  have h := login_correct_password Sample.digest Sample.registered
    (Sample.attempt "Password1" "") Sample.carol rfl rfl rfl rfl (by decide)
  ⟨Sample.registration_result, h.1, h.2.1, h.2.2.2.1⟩

/-- The MFA step of `login` once `loadUserFiles` has returned.  For an active, unlocked
account with MFA enabled and a login attempt with the correct password, `login` returns
`true` exactly when the code typed equals the code issued.  With the right code the
account becomes the session; with a wrong code the attempt returns `false` with the MFA
message and the engine it was given, so no session is set and `failedLogins` and the
locked flag are unchanged.  Whether `loadUserFiles` returns is the matter of `loginAt`. -/
theorem mfa_login (sha256 : String → String) (e : CloudEngine) (inp : LoginInput)
    (u : User) (hfind : e.userRepo.find inp.username = some u)
    (hact : u.isActive = true) (hunl : u.isLocked = false) (hmfa : u.mfaEnabled = true)
    (hgood : sha256 (u.salt ++ inp.password) = u.passwordHash) :
    ((login sha256 e inp).ok = true ↔ inp.mfaInput = inp.mfaCode) ∧
    (inp.mfaInput = inp.mfaCode →
      (login sha256 e inp).engine.currentUser = some inp.username ∧
      (login sha256 e inp).engine.userRepo.find inp.username =
        some { u with failedLogins := 0, isLocked := false, lastLoginTime := inp.now }) ∧
    (inp.mfaInput ≠ inp.mfaCode →
      (login sha256 e inp).ok = false ∧
      (login sha256 e inp).msg = LoginMsg.invalidMfaCode ∧
      (login sha256 e inp).engine = e ∧
      (login sha256 e inp).engine.userRepo.find inp.username = some u) := by
  by_cases hcode : inp.mfaInput = inp.mfaCode
  · rw [login_success sha256 e inp u hfind hact hunl hgood (Or.inr hcode)]
    have hf := UserRepository.find_modify_same e.userRepo inp.username
      (fun x => { x with failedLogins := 0, isLocked := false, lastLoginTime := inp.now })
      (fun _ => rfl)
    rw [hfind] at hf
    exact ⟨⟨fun _ => hcode, fun _ => rfl⟩, fun _ => ⟨rfl, hf⟩, fun h => absurd hcode h⟩
  · rw [login_mfa_failed sha256 e inp u hfind hact hunl hgood hmfa hcode]
    refine ⟨⟨fun h => ?_, fun h => absurd h hcode⟩, fun h => absurd h hcode,
      fun _ => ⟨rfl, rfl, rfl, hfind⟩⟩
    simp at h

/-- An instance of `mfa_login`: with MFA enabled and the right password, the code
`000000` is refused and changes nothing, the issued code `123456` is accepted. -/
theorem mfa_login_witness :
    (login Sample.digest Sample.registeredMfa (Sample.attempt "Password1" "000000")).ok =
      false ∧
    (login Sample.digest Sample.registeredMfa (Sample.attempt "Password1" "000000")).engine =
      Sample.registeredMfa ∧
    (login Sample.digest Sample.registeredMfa (Sample.attempt "Password1" "123456")).ok =
      true :=
  ⟨((mfa_login Sample.digest Sample.registeredMfa (Sample.attempt "Password1" "000000")
      { Sample.carol with mfaEnabled := true } rfl rfl rfl rfl (by decide)).2.2
      (by decide)).1,
    ((mfa_login Sample.digest Sample.registeredMfa (Sample.attempt "Password1" "000000")
      { Sample.carol with mfaEnabled := true } rfl rfl rfl rfl (by decide)).2.2
      (by decide)).2.2.1,
    (mfa_login Sample.digest Sample.registeredMfa (Sample.attempt "Password1" "123456")
      { Sample.carol with mfaEnabled := true } rfl rfl rfl rfl (by decide)).1.2 rfl⟩

/-! ## Login against the data file -/

theorem loginAt_failed (sha256 : String → String) (e : CloudEngine) (d : Disk)
    (inp : LoginInput) (h : (login sha256 e { inp with userFile := none }).ok = false) :
    loginAt sha256 e d inp = some (login sha256 e { inp with userFile := none }) := by
  simp [loginAt, h]

/-- On the success path `login` returns exactly when `loadUserFiles` does. -/
theorem loginAt_success (sha256 : String → String) (e : CloudEngine) (d : Disk)
    (inp : LoginInput) (u : User) (hfind : e.userRepo.find inp.username = some u)
    (hact : u.isActive = true) (hunl : u.isLocked = false)
    (hgood : sha256 (u.salt ++ inp.password) = u.passwordHash)
    (hmfa : u.mfaEnabled = false ∨ inp.mfaInput = inp.mfaCode) :
    loginAt sha256 e d inp =
      (e.fileRepo.loadUserFilesAt inp.username d).map
        (fun fileRepo =>
          { engine :=
              { userRepo := e.userRepo.modify inp.username
                  (fun x =>
                    { x with failedLogins := 0, isLocked := false, lastLoginTime := inp.now })
                fileRepo := fileRepo
                currentUser := some inp.username }
            ok := true
            msg := LoginMsg.welcomeBack
            audit := [(AuditEventType.LOGIN_SUCCESS, "User=" ++ u.username)] }) := by
  have h := login_success sha256 e { inp with userFile := none } u hfind hact hunl hgood hmfa
  unfold loginAt
  simp only [h, FileRepository.loadUserFiles]
  cases e.fileRepo.loadUserFilesAt inp.username d <;> rfl

/-- C9, the run on which the code departs from the claim.  `carol` registers with
`Password1`, logs in, uploads 1 MB under the file name `a|b.txt` (the upload is reported
as done and both files are written) and logs out.  Her account is then registered,
active, unlocked, with MFA disabled, and the digest of `salt ++ Password1` is the stored
one.  The line `saveUserFiles` wrote has the `|` of the name as a field separator, so
`loadUserFiles` passes the owner `carol` to `stoi` for the region, which throws:
`login` with `Password1` does not return.  With the wrong password it returns `false`,
and before the upload (no data file) it returns `true`. -/
theorem login_stops_on_own_file :
    registerUser Sample.digest Sample.empty Sample.registration =
      some (Sample.registered, true) ∧
    (uploadFileStored roundDouble Sample.carolSession ⟨[]⟩ Sample.pipeUpload).map (fun r => r.2.2) =
      some UploadMsg.uploaded ∧
    Sample.pipeDisk.read (FileRepository.pathOf "carol") =
      some "file_2|a|b.txt|carol|1|0|2024-01-02 10:00:00|1||0|1\n" ∧
    stoi "carol" = none ∧
    parseFileLine "file_2|a|b.txt|carol|1|0|2024-01-02 10:00:00|1||0|1" = none ∧
    Sample.afterPipeUpload.currentUser = none ∧
    (∃ u, Sample.afterPipeUpload.userRepo.find "carol" = some u ∧
      u.isActive = true ∧ u.isLocked = false ∧ u.mfaEnabled = false ∧
      Sample.digest (u.salt ++ "Password1") = u.passwordHash) ∧
    loginAt Sample.digest Sample.afterPipeUpload Sample.pipeDisk
      (Sample.attempt "Password1" "") = none ∧
    (loginAt Sample.digest Sample.afterPipeUpload Sample.pipeDisk
      (Sample.attempt "Password2" "")).map (fun r => r.ok) = some false ∧
    (loginAt Sample.digest Sample.registered ⟨[]⟩
      (Sample.attempt "Password1" "")).map (fun r => (r.ok, r.engine.currentUser)) =
      some (true, some "carol") := by
  refine ⟨Sample.registration_result, ?_, ?_, ?_, ?_, ?_, ?_, ?_, ?_, ?_⟩
  · decide!
  · decide!
  · decide!
  · decide!
  · decide!
  · exact ⟨{ Sample.carol with usedStorage := 1, lastLoginTime := 2000 },
      by decide!, rfl, rfl, rfl, by decide⟩
  · decide!
  · decide!
  · decide!

/-- C10, the run on which the code departs from the claim.  `carol` uploads 1 MB under
the file name `a|b.txt`, enables MFA and logs out; her account is active, unlocked, with
MFA enabled.  With the right password and the code issued, `loadUserFiles` throws on the
line `saveUserFiles` wrote and `login` does not return, so a matching code does not make
the login succeed.  With the right password and another code the attempt returns `false`
with the MFA message and the engine it was given. -/
theorem mfa_login_stops_on_own_file :
    (∃ u, Sample.afterPipeUploadMfa.userRepo.find "carol" = some u ∧
      u.isActive = true ∧ u.isLocked = false ∧ u.mfaEnabled = true ∧
      Sample.digest (u.salt ++ "Password1") = u.passwordHash) ∧
    Sample.afterPipeUploadMfa.currentUser = none ∧
    Sample.pipeDisk.read (FileRepository.pathOf "carol") =
      some "file_2|a|b.txt|carol|1|0|2024-01-02 10:00:00|1||0|1\n" ∧
    (Sample.attempt "Password1" "123456").mfaInput =
      (Sample.attempt "Password1" "123456").mfaCode ∧
    loginAt Sample.digest Sample.afterPipeUploadMfa Sample.pipeDisk
      (Sample.attempt "Password1" "123456") = none ∧
    (loginAt Sample.digest Sample.afterPipeUploadMfa Sample.pipeDisk
      (Sample.attempt "Password1" "000000")).map (fun r => (r.ok, r.msg, r.engine)) =
      some (false, LoginMsg.invalidMfaCode, Sample.afterPipeUploadMfa) := by
  refine ⟨?_, ?_, ?_, rfl, ?_, ?_⟩
  · exact ⟨{ Sample.carol with usedStorage := 1, lastLoginTime := 2000, mfaEnabled := true },
      by decide!, rfl, rfl, rfl, by decide⟩
  · decide!
  · decide!
  · decide!
  · decide!

/-! ## Lockout invariant -/

theorem mem_modifyFirst {α : Type} (p : α → Bool) (f : α → α) (l : List α) (y : α)
    (h : y ∈ modifyFirst p f l) : y ∈ l ∨ ∃ x, l.find? p = some x ∧ y = f x := by
  induction l with
  | nil => simp [modifyFirst] at h
  | cons x xs ih =>
    by_cases hx : p x = true
    · have h0 : modifyFirst p f (x :: xs) = f x :: xs := by
        simp [modifyFirst, hx]
      rw [h0] at h
      rcases List.mem_cons.mp h with h | h
      · exact Or.inr ⟨x, by simp [List.find?_cons, hx], h⟩
      · exact Or.inl (List.mem_cons_of_mem x h)
    · have h0 : modifyFirst p f (x :: xs) = x :: modifyFirst p f xs := by
        simp [modifyFirst, hx]
      rw [h0] at h
      rcases List.mem_cons.mp h with h | h
      · exact Or.inl (by rw [h]; exact List.mem_cons_self x xs)
      · rcases ih h with h1 | ⟨x1, h1, h2⟩
        · exact Or.inl (List.mem_cons_of_mem x h1)
        · exact Or.inr ⟨x1, by simp [List.find?_cons, hx, h1], h2⟩

theorem login_engine_cases (sha256 : String → String) (e : CloudEngine) (inp : LoginInput) :
    (login sha256 e inp).engine = e ∨
    ∃ u, e.userRepo.find inp.username = some u ∧ u.isActive = true ∧ u.isLocked = false ∧
      ((sha256 (u.salt ++ inp.password) ≠ u.passwordHash ∧
        (login sha256 e inp).engine.userRepo = e.userRepo.modify inp.username
          (fun x => { x with
            failedLogins := x.failedLogins + 1
            isLocked := x.isLocked ||
              decide (Config.MAX_FAILED_LOGINS ≤ u.failedLogins + 1) })) ∨
       ((login sha256 e inp).ok = true ∧
        (login sha256 e inp).engine.userRepo = e.userRepo.modify inp.username
          (fun x => { x with
            failedLogins := 0, isLocked := false, lastLoginTime := inp.now }))) := by
  cases hfind : e.userRepo.find inp.username with
  | none => left; unfold login; simp [hfind]
  | some u =>
    by_cases hact : u.isActive = true
    · by_cases hlocked : u.isLocked = true
      · left; rw [login_locked sha256 e inp u hfind hact hlocked]
      · have hunl : u.isLocked = false := by simpa using hlocked
        by_cases hgood : sha256 (u.salt ++ inp.password) = u.passwordHash
        · by_cases hmfa : u.mfaEnabled = false ∨ inp.mfaInput = inp.mfaCode
          · right
            refine ⟨u, rfl, hact, hunl, Or.inr ?_⟩
            rw [login_success sha256 e inp u hfind hact hunl hgood hmfa]
            exact ⟨rfl, rfl⟩
          · left
            have h1 : u.mfaEnabled = true := by
              cases hm : u.mfaEnabled with
              | false => exact absurd (Or.inl hm) hmfa
              | true => rfl
            have h2 : inp.mfaInput ≠ inp.mfaCode := fun hh => hmfa (Or.inr hh)
            rw [login_mfa_failed sha256 e inp u hfind hact hunl hgood h1 h2]
        · right
          exact ⟨u, rfl, hact, hunl, Or.inl ⟨hgood,
            (login_bad_password sha256 e inp u hfind hact hunl hgood).2.2.2⟩⟩
    · left; unfold login; simp [hfind, hact]

theorem uploadFile_userRepo (e : CloudEngine) (inp : UploadInput) (e1 : CloudEngine)
    (msg : UploadMsg) (h : uploadFile e inp = some (e1, msg)) :
    e1.userRepo = e.userRepo ∨ ∃ n s, e1.userRepo = e.userRepo.modify n
      (fun x => { x with usedStorage := x.usedStorage + s }) := by
  unfold uploadFile at h
  cases hcur : e.currentUser with
  | none => simp [hcur] at h; left; rw [← h.1]
  | some username =>
    cases hfind : e.userRepo.find username with
    | none => simp [hcur, hfind] at h; left; rw [← h.1]
    | some cu =>
      cases hn : readFileName inp.names with
      | none => simp [hcur, hfind, hn] at h
      | some name =>
        cases hs : readFileSize cu inp.sizes with
        | none => simp [hcur, hfind, hn, hs] at h
        | some r =>
          cases r with
          | limitExceeded => simp [hcur, hfind, hn, hs] at h; left; rw [← h.1]
          | accepted sizeMB =>
            simp only [hcur, hfind, hn, hs, Option.some.injEq, Prod.mk.injEq] at h
            right
            exact ⟨username, sizeMB, by rw [← h.1]⟩

theorem deleteFile_userRepo (e : CloudEngine) (inp : DeleteInput) :
    (deleteFile e inp).1.userRepo = e.userRepo ∨ ∃ n s, (deleteFile e inp).1.userRepo =
      e.userRepo.modify n (fun x => { x with usedStorage := x.usedStorage - s }) := by
  cases hcur : e.currentUser with
  | none => left; unfold deleteFile; simp [hcur]
  | some username =>
    by_cases hc : inp.n ≤ 0 ∨ inp.n > ((e.fileRepo.filesOfConst username).length : Int) ∨
        inp.conf ≠ "YES"
    · obtain ⟨msg, hd, _⟩ := deleteFile_cancelled e inp username hcur hc
      left; rw [hd]
    · have hlo1 : 1 ≤ inp.n := by omega
      have hhi1 : inp.n ≤ ((e.fileRepo.filesOfConst username).length : Int) := by omega
      have hconf : inp.conf = "YES" := by
        by_contra hne
        exact hc (Or.inr (Or.inr hne))
      obtain ⟨fr, hfr⟩ := getElem?_of_index _ inp.n hlo1 hhi1
      right
      rw [deleteFile_done e inp username fr hcur hlo1 hhi1 hfr hconf]
      exact ⟨username, fr.sizeMB, rfl⟩

theorem step_userRepo (sha256 : String → String) (e : CloudEngine) (op : Op)
    (e1 : CloudEngine) (h : step sha256 e op = some e1) :
    e1.userRepo = e.userRepo ∨
    ∃ n f, e1.userRepo = e.userRepo.modify n f ∧ (∀ x, (f x).username = x.username) ∧
      ∀ u, e.userRepo.find n = some u → LockoutChange sha256 e op n u (f u) := by
  cases op with
  | login inp =>
    simp only [step, Option.some.injEq] at h
    subst h
    rcases login_engine_cases sha256 e inp with h1 | ⟨u, hfind, hact, hunl, h1 | h1⟩
    · left; rw [h1]
    · right
      refine ⟨inp.username, _, h1.2, fun _ => rfl, ?_⟩
      intro u2 hu2
      have hu : u2 = u := by rw [hfind] at hu2; exact (Option.some.inj hu2).symm
      subst hu
      right; left
      exact ⟨⟨inp, rfl, rfl, h1.1⟩, hact, hunl, rfl, by simp [hunl]⟩
    · right
      refine ⟨inp.username, _, h1.2, fun _ => rfl, ?_⟩
      intro u2 _
      right; right
      exact ⟨Or.inl ⟨inp, rfl, rfl, h1.1⟩, rfl, rfl⟩
  | logout =>
    simp only [step, Option.some.injEq] at h
    subst h
    left
    cases hcur : e.currentUser <;> simp [logout, hcur]
  | showProfile c =>
    simp only [step, Option.some.injEq] at h
    subst h
    cases hcur : e.currentUser with
    | none => left; simp [showProfile, hcur]
    | some username =>
      by_cases hc : c = 1
      · right
        simp only [showProfile, hcur, hc, if_true]
        exact ⟨username, _, rfl, fun _ => rfl, fun _ _ => Or.inl ⟨rfl, rfl⟩⟩
      · left; simp [showProfile, hcur, hc]
  | uploadFile inp =>
    cases hu : uploadFile e inp with
    | none => simp [step, hu] at h
    | some r =>
      obtain ⟨e2, msg⟩ := r
      simp only [step, hu, Option.map_some', Option.some.injEq] at h
      subst h
      rcases uploadFile_userRepo e inp e2 msg hu with h1 | ⟨n, s, h1⟩
      · left; exact h1
      · right
        exact ⟨n, _, h1, fun _ => rfl, fun _ _ => Or.inl ⟨rfl, rfl⟩⟩
  | deleteFile inp =>
    simp only [step, Option.some.injEq] at h
    subst h
    rcases deleteFile_userRepo e inp with h1 | ⟨n, s, h1⟩
    · left; exact h1
    · right
      exact ⟨n, _, h1, fun _ => rfl, fun _ _ => Or.inl ⟨rfl, rfl⟩⟩
  | upgradeAccount conf saved =>
    simp only [step, Option.some.injEq] at h
    subst h
    cases hcur : e.currentUser with
    | none => left; simp [upgradeAccount, hcur]
    | some username =>
      cases hfind : e.userRepo.find username with
      | none => left; simp [upgradeAccount, hcur, hfind]
      | some cu =>
        by_cases h1 : cu.role = UserRole.PREMIUM_USER
        · left; simp [upgradeAccount, hcur, hfind, h1]
        · by_cases h2 : cu.role = UserRole.ADMIN
          · left; simp [upgradeAccount, hcur, hfind, h2]
          · by_cases h3 : conf = "YES"
            · right
              simp only [upgradeAccount, hcur, hfind, h1, h2, h3, if_false, ne_eq,
                not_true_eq_false]
              exact ⟨username, _, rfl, fun _ => rfl, fun _ _ => Or.inl ⟨rfl, rfl⟩⟩
            · left; simp [upgradeAccount, hcur, hfind, h1, h2, h3]
  | adminUnlockUser name =>
    simp only [step, Option.some.injEq] at h
    subst h
    by_cases hadm : e.isAdmin = true
    · cases hfind : e.userRepo.find name with
      | none => left; simp [adminUnlockUser, hadm, hfind]
      | some u0 =>
        right
        simp only [adminUnlockUser, hadm, hfind, Bool.not_true, Bool.false_eq_true, if_false]
        exact ⟨name, _, rfl, fun _ => rfl,
          fun _ _ => Or.inr (Or.inr ⟨Or.inr ⟨rfl, hadm⟩, rfl, rfl⟩)⟩
    · left; simp [adminUnlockUser, hadm]

theorem LockoutOK_of_change (sha256 : String → String) (e : CloudEngine) (op : Op)
    (n : String) (u u1 : User) (hok : LockoutOK u)
    (h : LockoutChange sha256 e op n u u1) : LockoutOK u1 := by
  obtain ⟨hge, hle, hiff⟩ := hok
  unfold LockoutOK
  unfold Config.MAX_FAILED_LOGINS at *
  rcases h with ⟨h1, h2⟩ | ⟨_, _, hunl, h1, h2⟩ | ⟨_, h1, h2⟩
  · rw [h1, h2]; exact ⟨hge, hle, hiff⟩
  · have hlt : ¬ (5 : Int) ≤ u.failedLogins := fun hh => by
      have := hiff.mpr hh
      rw [hunl] at this
      exact Bool.noConfusion this
    rw [h1]
    exact ⟨by omega, by omega, h2⟩
  · rw [h1, h2]
    exact ⟨by decide, by decide, by decide⟩

theorem step_preserves_LockoutOK (sha256 : String → String) (e : CloudEngine) (op : Op)
    (e1 : CloudEngine) (h : step sha256 e op = some e1)
    (hok : ∀ u ∈ e.userRepo.users, LockoutOK u) : ∀ u ∈ e1.userRepo.users, LockoutOK u := by
  rcases step_userRepo sha256 e op e1 h with h1 | ⟨n, f, h1, _, h3⟩
  · rw [h1]; exact hok
  · intro y hy
    rw [h1] at hy
    rcases mem_modifyFirst _ f e.userRepo.users y hy with h4 | ⟨x, hx, hyx⟩
    · exact hok y h4
    · have hxmem : x ∈ e.userRepo.users := List.mem_of_find?_eq_some hx
      rw [hyx]
      exact LockoutOK_of_change sha256 e op n x (f x) (hok x hxmem) (h3 x hx)

theorem run_preserves_LockoutOK (sha256 : String → String) (ops : List Op) :
    ∀ (e e1 : CloudEngine), (∀ u ∈ e.userRepo.users, LockoutOK u) →
    run sha256 e ops = some e1 → ∀ u ∈ e1.userRepo.users, LockoutOK u := by
  induction ops with
  | nil =>
    intro e e1 hok h
    simp only [run, Option.some.injEq] at h
    rw [← h]
    exact hok
  | cons op ops ih =>
    intro e e1 hok h
    cases hs : step sha256 e op with
    | none => simp [run, hs] at h
    | some e2 =>
      simp only [run, hs] at h
      exact ih e2 e1 (step_preserves_LockoutOK sha256 e op e2 hs hok) h

theorem run_isSome (sha256 : String → String) (ops : List Op) : ∀ (e : CloudEngine),
    (∀ op ∈ ops, op.promptsEnd) → ∃ e1, run sha256 e ops = some e1 := by
  induction ops with
  | nil => intro e _; exact ⟨e, rfl⟩
  | cons op ops ih =>
    intro e h
    have hrest : ∀ o ∈ ops, o.promptsEnd := fun o ho => h o (List.mem_cons_of_mem op ho)
    have hstep : ∃ e2, step sha256 e op = some e2 := by
      cases op with
      | uploadFile inp =>
        have hs := uploadFile_isSome e inp (h _ (List.mem_cons_self _ ops))
        cases hu : uploadFile e inp with
        | none => simp [hu] at hs
        | some r => exact ⟨r.1, by simp [step, hu]⟩
      | login inp => exact ⟨_, rfl⟩
      | logout => exact ⟨_, rfl⟩
      | showProfile c => exact ⟨_, rfl⟩
      | deleteFile inp => exact ⟨_, rfl⟩
      | upgradeAccount conf saved => exact ⟨_, rfl⟩
      | adminUnlockUser name => exact ⟨_, rfl⟩
    obtain ⟨e2, he2⟩ := hstep
    obtain ⟨e3, he3⟩ := ih e2 hrest
    exact ⟨e3, by simp only [run, he2]; exact he3⟩

theorem step_lockout_change (sha256 : String → String) (e : CloudEngine) (op : Op)
    (e1 : CloudEngine) (h : step sha256 e op = some e1) (name : String) (u u1 : User)
    (hu : e.userRepo.find name = some u) (hu1 : e1.userRepo.find name = some u1) :
    LockoutChange sha256 e op name u u1 := by
  rcases step_userRepo sha256 e op e1 h with h1 | ⟨n, f, h1, h2, h3⟩
  · rw [h1, hu] at hu1
    have : u1 = u := (Option.some.inj hu1).symm
    rw [this]
    exact Or.inl ⟨rfl, rfl⟩
  · by_cases hn : name = n
    · subst hn
      rw [h1, UserRepository.find_modify_same e.userRepo name f h2, hu] at hu1
      have : u1 = f u := (Option.some.inj hu1).symm
      rw [this]
      exact h3 u hu
    · rw [h1, UserRepository.find_modify_other e.userRepo n name f h2 hn, hu] at hu1
      have : u1 = u := (Option.some.inj hu1).symm
      rw [this]
      exact Or.inl ⟨rfl, rfl⟩

/-- C8. Lockout invariant.  Start from a table in which every account is fresh
(`failedLogins = 0`, unlocked) and run any sequence of logins (any password, any MFA code),
logouts, MFA toggles, uploads, deletes, upgrades and admin unlocks.  In every state
reached, each account has `0 ≤ failedLogins ≤ 5` and is locked exactly when `failedLogins`
is 5; and for any further operation from such a state, the `failedLogins` of an account
increases only when the operation is a login under its username with a wrong password
while it is active and unlocked, and goes from a non-zero value to 0 only when the
operation is a login under its username that succeeds or an admin unlock of it by an
admin session.  The sequence returns whenever the prompts of each upload end. -/
theorem lockout_invariant (sha256 : String → String) (e0 : CloudEngine)
    (hfresh : ∀ u ∈ e0.userRepo.users, u.failedLogins = 0 ∧ u.isLocked = false)
    (ops : List Op) :
    (∀ e, run sha256 e0 ops = some e →
      (∀ u ∈ e.userRepo.users,
        0 ≤ u.failedLogins ∧ u.failedLogins ≤ 5 ∧ (u.isLocked = true ↔ u.failedLogins = 5)) ∧
      (∀ op e1, step sha256 e op = some e1 →
        ∀ name u u1, e.userRepo.find name = some u → e1.userRepo.find name = some u1 →
          (u.failedLogins < u1.failedLogins →
            ∃ inp, op = Op.login inp ∧ inp.username = name ∧ u.isActive = true ∧
              u.isLocked = false ∧ sha256 (u.salt ++ inp.password) ≠ u.passwordHash) ∧
          (u1.failedLogins = 0 → u.failedLogins ≠ 0 →
            (∃ inp, op = Op.login inp ∧ inp.username = name ∧
              (login sha256 e inp).ok = true) ∨
            (op = Op.adminUnlockUser name ∧ e.isAdmin = true)))) ∧
    ((∀ op ∈ ops, op.promptsEnd) → ∃ e, run sha256 e0 ops = some e) := by
  have h0 : ∀ u ∈ e0.userRepo.users, LockoutOK u := by
    intro u hu
    obtain ⟨h1, h2⟩ := hfresh u hu
    unfold LockoutOK Config.MAX_FAILED_LOGINS
    rw [h1, h2]
    exact ⟨by decide, by decide, by decide⟩
  refine ⟨fun e hrun => ?_, run_isSome sha256 ops e0⟩
  have hinv := run_preserves_LockoutOK sha256 ops e0 e h0 hrun
  constructor
  · intro u hu
    obtain ⟨h1, h2, h3⟩ := hinv u hu
    unfold Config.MAX_FAILED_LOGINS at h2 h3
    refine ⟨h1, h2, ?_⟩
    rw [h3]
    constructor
    · intro h; omega
    · intro h; omega
  · intro op e1 hstep name u u1 hu hu1
    have hmem : u ∈ e.userRepo.users := List.mem_of_find?_eq_some hu
    obtain ⟨hge, _, _⟩ := hinv u hmem
    rcases step_lockout_change sha256 e op e1 hstep name u u1 hu hu1 with
      ⟨h1, _⟩ | ⟨⟨inp, hop, hname, hbad⟩, hact, hunl, h1, _⟩ | ⟨hwho, h1, _⟩
    · constructor
      · intro hlt; omega
      · intro hz hnz; rw [h1] at hz; exact absurd hz hnz
    · constructor
      · intro _; exact ⟨inp, hop, hname, hact, hunl, hbad⟩
      · intro hz _; omega
    · constructor
      · intro hlt; omega
      · intro _ _; exact hwho

/-- Witness of C8: the sample session on the engine with two fresh accounts returns, and
in the state it reaches every account satisfies the lockout bounds. -/
theorem lockout_invariant_witness :
    ∃ e, run Sample.digest Sample.office Sample.session = some e ∧
      ∀ u ∈ e.userRepo.users,
        0 ≤ u.failedLogins ∧ u.failedLogins ≤ 5 ∧ (u.isLocked = true ↔ u.failedLogins = 5) :=
  have h := lockout_invariant Sample.digest Sample.office
    (by
      intro u hu
      simp only [Sample.office, List.mem_cons, List.mem_singleton, List.not_mem_nil,
        or_false] at hu
      rcases hu with rfl | rfl <;> exact ⟨rfl, rfl⟩)
    Sample.session
  have hend : ∀ op ∈ Sample.session, op.promptsEnd := by
    intro op hop
    simp only [Sample.session, List.mem_cons, List.mem_singleton, List.not_mem_nil,
      or_false] at hop
    rcases hop with rfl | rfl | rfl | rfl | rfl | rfl | rfl | rfl | rfl | rfl | rfl | rfl | rfl
    all_goals first
      | trivial
      | exact ⟨⟨"notes.txt", by simp [Sample.upload], by decide⟩,
          ⟨4, by simp [Sample.upload], by norm_num⟩⟩
  Exists.elim (h.2 hend) (fun e he => ⟨e, he, (h.1 e he).1⟩)

/-! ## Inactive accounts and unknown usernames -/

/-- C11. For an inactive account, whatever its locked flag and whatever the password, a
login attempt returns `false` with the deactivated message (not the locked one and not
the invalid-credentials one) and the engine it was given: no session is set and no field
of the account changes. -/
theorem login_inactive (sha256 : String → String) (e : CloudEngine) (inp : LoginInput)
    (u : User) (hfind : e.userRepo.find inp.username = some u)
    (hin : u.isActive = false) :
    (login sha256 e inp).ok = false ∧
    (login sha256 e inp).msg = LoginMsg.deactivated ∧
    (login sha256 e inp).audit =
      [(AuditEventType.LOGIN_FAIL, "User=" ++ inp.username ++ " reason=inactive")] ∧
    (login sha256 e inp).engine = e ∧
    (login sha256 e inp).engine.userRepo.find inp.username = some u := by
  have h : login sha256 e inp =
      { engine := e, ok := false, msg := LoginMsg.deactivated
        audit := [(AuditEventType.LOGIN_FAIL, "User=" ++ inp.username ++ " reason=inactive")] } := by
    unfold login
    simp [hfind, hin]
  rw [h]
  exact ⟨rfl, rfl, rfl, rfl, hfind⟩

/-- Witness of C11: `carol` deactivated and locked, with the right password. -/
theorem login_inactive_witness :
    (login Sample.digest Sample.retired (Sample.attempt "Password1" "")).ok = false ∧
    (login Sample.digest Sample.retired (Sample.attempt "Password1" "")).msg =
      LoginMsg.deactivated ∧
    (login Sample.digest Sample.retired (Sample.attempt "Password1" "")).engine =
      Sample.retired :=
  have h := login_inactive Sample.digest Sample.retired (Sample.attempt "Password1" "")
    { Sample.carol with isActive := false, isLocked := true, failedLogins := 5 } rfl rfl
  ⟨h.1, h.2.1, h.2.2.2.1⟩

/-- C16. Role upgrade.  For a session whose account is Basic, an `upgradeAccount` that is
confirmed with `YES` sets the role to Premium and changes no other field, so the storage
limit goes from 1024 to 10240 while `usedStorage` is the same, and a `usedStorage` within
the old limit is within the new one; no other account, no file list and not the session
changes.  For a session whose account is Premium or Admin the call is rejected and the
engine is unchanged. -/
theorem upgrade_account (e : CloudEngine) (conf : String) (saved : Bool)
    (username : String) (cu : User)
    (hcur : e.currentUser = some username) (hfind : e.userRepo.find username = some cu) :
    (cu.role = UserRole.FREE_USER → conf = "YES" →
      (upgradeAccount e conf saved).1.userRepo.find username =
        some { cu with role := UserRole.PREMIUM_USER } ∧
      cu.storageLimit = 1024 ∧
      ({ cu with role := UserRole.PREMIUM_USER } : User).storageLimit = 10240 ∧
      cu.storageLimit < ({ cu with role := UserRole.PREMIUM_USER } : User).storageLimit ∧
      (cu.usedStorage ≤ cu.storageLimit →
        ({ cu with role := UserRole.PREMIUM_USER } : User).usedStorage ≤
          ({ cu with role := UserRole.PREMIUM_USER } : User).storageLimit) ∧
      (∀ m, m ≠ username →
        (upgradeAccount e conf saved).1.userRepo.find m = e.userRepo.find m) ∧
      (upgradeAccount e conf saved).1.fileRepo = e.fileRepo ∧
      (upgradeAccount e conf saved).1.currentUser = e.currentUser ∧
      (upgradeAccount e conf saved).2 =
        (if saved then UpgradeMsg.nowPremium else UpgradeMsg.failedToSave)) ∧
    (cu.role = UserRole.PREMIUM_USER →
      upgradeAccount e conf saved = (e, UpgradeMsg.alreadyPremium)) ∧
    (cu.role = UserRole.ADMIN →
      upgradeAccount e conf saved = (e, UpgradeMsg.adminsHaveMax)) := by
  refine ⟨?_, ?_, ?_⟩
  · intro hrole hconf
    have hup : upgradeAccount e conf saved =
        ({ e with
            userRepo := (e.userRepo.modify username
              (fun u => { u with role := UserRole.PREMIUM_USER })) },
          if saved then UpgradeMsg.nowPremium else UpgradeMsg.failedToSave) := by
      unfold upgradeAccount
      simp [hcur, hfind, hrole, hconf]
    have hf := UserRepository.find_modify_same e.userRepo username
      (fun u => { u with role := UserRole.PREMIUM_USER }) (fun _ => rfl)
    rw [hfind] at hf
    have hold : cu.storageLimit = 1024 := by
      simp [User.storageLimit, hrole, Config.FREE_STORAGE_LIMIT]
    have hnew : ({ cu with role := UserRole.PREMIUM_USER } : User).storageLimit = 10240 := by
      simp [User.storageLimit, Config.PREMIUM_STORAGE_LIMIT]
    rw [hup]
    refine ⟨hf, hold, hnew, ?_, ?_, ?_, rfl, rfl, rfl⟩
    · rw [hold, hnew]; norm_num
    · intro h
      rw [hnew]
      rw [hold] at h
      show cu.usedStorage ≤ 10240
      linarith
    · intro m hm
      exact UserRepository.find_modify_other e.userRepo username m _ (fun _ => rfl) hm
  · intro hrole
    unfold upgradeAccount
    simp [hcur, hfind, hrole]
  · intro hrole
    unfold upgradeAccount
    simp [hcur, hfind, hrole]

/-- Witness of C16: the Basic `alice` upgrades; the Admin `dave` is refused. -/
theorem upgrade_account_witness :
    (upgradeAccount Sample.engine "YES" true).1.userRepo.find "alice" =
      some { Sample.alice with role := UserRole.PREMIUM_USER } ∧
    upgradeAccount Sample.adminOffice "YES" true =
      (Sample.adminOffice, UpgradeMsg.adminsHaveMax) :=
  ⟨((upgrade_account Sample.engine "YES" true "alice" Sample.alice rfl rfl).1 rfl rfl).1,
    (upgrade_account Sample.adminOffice "YES" true "dave" Sample.dave rfl rfl).2.2 rfl⟩

/-- C17. Admin unlock.  The session is an admin session exactly when a session exists and
its account has role Admin.  In an admin session, `adminUnlockUser` on a registered
username sets the locked flag of that account to false and its `failedLogins` to 0 and
changes no other field of it, no other account, no file list and not the session.
Without an admin session (no session, or an account that is not Admin), and for a
username that is not registered, the engine is unchanged. -/
theorem admin_unlock (e : CloudEngine) (name : String) :
    (e.isAdmin = true ↔ ∃ n cu, e.currentUser = some n ∧ e.userRepo.find n = some cu ∧
      cu.role = UserRole.ADMIN) ∧
    (e.isAdmin = true → ∀ u, e.userRepo.find name = some u →
      (adminUnlockUser e name).2 = AdminMsg.userUnlocked ∧
      (adminUnlockUser e name).1.userRepo.find name =
        some { u with isLocked := false, failedLogins := 0 } ∧
      (∀ m, m ≠ name → (adminUnlockUser e name).1.userRepo.find m = e.userRepo.find m) ∧
      (adminUnlockUser e name).1.fileRepo = e.fileRepo ∧
      (adminUnlockUser e name).1.currentUser = e.currentUser) ∧
    (e.isAdmin = false → adminUnlockUser e name = (e, AdminMsg.adminOnly)) ∧
    (e.isAdmin = true → e.userRepo.find name = none →
      adminUnlockUser e name = (e, AdminMsg.userNotFound)) := by
  refine ⟨?_, ?_, ?_, ?_⟩
  · cases hcur : e.currentUser with
    | none => simp [isAdmin, current, hcur]
    | some n =>
      cases hfind : e.userRepo.find n with
      | none => simp [isAdmin, current, hcur, hfind]
      | some cu => simp [isAdmin, current, hcur, hfind]
  · intro hadm u hfind
    have hun : adminUnlockUser e name =
        ({ e with
            userRepo := (e.userRepo.modify name
              (fun u => { u with isLocked := false, failedLogins := 0 })) },
          AdminMsg.userUnlocked) := by
      unfold adminUnlockUser
      simp [hadm, hfind]
    have hf := UserRepository.find_modify_same e.userRepo name
      (fun u => { u with isLocked := false, failedLogins := 0 }) (fun _ => rfl)
    rw [hfind] at hf
    rw [hun]
    refine ⟨rfl, hf, ?_, rfl, rfl⟩
    intro m hm
    exact UserRepository.find_modify_other e.userRepo name m _ (fun _ => rfl) hm
  · intro hadm
    unfold adminUnlockUser
    simp [hadm]
  · intro hadm hfind
    unfold adminUnlockUser
    simp [hadm, hfind]

/-- Witness of C17: the admin `dave` unlocks `carol`; without a session nothing changes. -/
theorem admin_unlock_witness :
    (adminUnlockUser Sample.adminOffice "carol").1.userRepo.find "carol" =
      some Sample.carol ∧
    adminUnlockUser Sample.retired "carol" = (Sample.retired, AdminMsg.adminOnly) ∧
    adminUnlockUser Sample.adminOffice "zed" = (Sample.adminOffice, AdminMsg.userNotFound) :=
  ⟨((admin_unlock Sample.adminOffice "carol").2.1 rfl
      { Sample.carol with isLocked := true, failedLogins := 5 } rfl).2.1,
    (admin_unlock Sample.retired "carol").2.2.1 rfl,
    (admin_unlock Sample.adminOffice "zed").2.2.2 rfl rfl⟩

/-- C18. Idempotent logout.  `logout` is a total function of the engine.  Without a
session it returns the engine it was given; with a session it clears the session pointer
and changes no account and no file list; a second `logout` changes nothing more. -/
theorem logout_idempotent (e : CloudEngine) :
    (e.currentUser = none → logout e = e) ∧
    (logout e).currentUser = none ∧
    (logout e).userRepo = e.userRepo ∧
    (logout e).fileRepo = e.fileRepo ∧
    logout (logout e) = logout e := by
  cases hcur : e.currentUser with
  | none =>
    have h : logout e = e := by simp [logout, hcur]
    rw [h]
    exact ⟨fun _ => rfl, hcur, rfl, rfl, h⟩
  | some n =>
    have h : logout e = { e with currentUser := none } := by simp [logout, hcur]
    rw [h]
    exact ⟨fun hh => by simp at hh, rfl, rfl, rfl, by simp [logout]⟩

/-- Witness of C18: logout without a session, and twice with one. -/
theorem logout_idempotent_witness :
    logout Sample.office = Sample.office ∧
    (logout Sample.adminOffice).currentUser = none ∧
    logout (logout Sample.adminOffice) = logout Sample.adminOffice :=
  ⟨(logout_idempotent Sample.office).1 rfl,
    (logout_idempotent Sample.adminOffice).2.1,
    (logout_idempotent Sample.adminOffice).2.2.2.2⟩

/-! ## File type -/

theorem find_last_of_eq_none (l : List Char) (c : Char) (h : c ∉ l) :
    find_last_of l c = none := by
  induction l with
  | nil => rfl
  | cons x xs ih =>
    have h1 : c ∉ xs := fun hh => h (List.mem_cons_of_mem x hh)
    have h2 : ¬ x = c := fun hh => h (by rw [hh]; exact List.mem_cons_self c xs)
    simp [find_last_of, ih h1, h2]

theorem find_last_of_append (stem ext : List Char) (c : Char) (h : c ∉ ext) :
    find_last_of (stem ++ c :: ext) c = some stem.length := by
  induction stem with
  | nil => simp [find_last_of, find_last_of_eq_none ext c h]
  | cons x xs ih => simp [find_last_of, ih]

theorem detectFileType_eq (stem ext : List Char) (h : '.' ∉ ext) :
    detectFileType (String.mk (stem ++ '.' :: ext)) =
      typeOfExtension (String.mk (ext.map Char.toLower)) := by
  unfold detectFileType typeOfExtension
  have hdrop : List.drop (stem.length + 1) (stem ++ '.' :: ext) = ext := by
    rw [List.drop_append_eq_append_drop]
    simp
  simp only [String.toList, find_last_of_append stem ext '.' h, hdrop, documentExtensions, imageExtensions, videoExtensions, audioExtensions,
    List.mem_cons, List.mem_singleton, List.not_mem_nil, or_false]

/-- C19. `detectFileType` depends on the text after the last dot alone, without regard to
letter case.  A file name without a dot gives `OTHER`.  For a file name `stem.ext` in
which `ext` has no dot, the result is the type of the lower-cased `ext` in the four
extension lists, so two file names whose extensions agree up to letter case get the same
type; an extension in none of the lists gives `OTHER`, the empty extension of `name.`
included. -/
theorem detectFileType_by_extension :
    (∀ filename : String, '.' ∉ filename.toList → detectFileType filename = FileType.OTHER) ∧
    (∀ stem ext : List Char, '.' ∉ ext →
      detectFileType (String.mk (stem ++ '.' :: ext)) =
        typeOfExtension (String.mk (ext.map Char.toLower))) ∧
    (∀ stem1 ext1 stem2 ext2 : List Char, '.' ∉ ext1 → '.' ∉ ext2 →
      ext1.map Char.toLower = ext2.map Char.toLower →
      detectFileType (String.mk (stem1 ++ '.' :: ext1)) =
        detectFileType (String.mk (stem2 ++ '.' :: ext2))) ∧
    (∀ ext : String,
      ext ∉ documentExtensions ++ imageExtensions ++ videoExtensions ++ audioExtensions →
      typeOfExtension ext = FileType.OTHER) ∧
    (∀ stem : List Char, detectFileType (String.mk (stem ++ ['.'])) = FileType.OTHER) := by
  refine ⟨?_, detectFileType_eq, ?_, ?_, ?_⟩
  · intro filename h
    unfold detectFileType
    rw [find_last_of_eq_none _ _ h]
  · intro stem1 ext1 stem2 ext2 h1 h2 heq
    rw [detectFileType_eq stem1 ext1 h1, detectFileType_eq stem2 ext2 h2, heq]
  · intro ext h
    simp only [List.mem_append, not_or] at h
    unfold typeOfExtension
    simp [h.1.1.1, h.1.1.2, h.1.2, h.2]
  · intro stem
    rw [detectFileType_eq stem [] (by simp)]
    decide

/-- Witness of C19: some file names. -/
theorem detectFileType_by_extension_witness :
    detectFileType "README" = FileType.OTHER ∧
    detectFileType "a.b.Jpeg" = FileType.IMAGE ∧
    detectFileType "a.b.Jpeg" = detectFileType "photo.jPEG" ∧
    detectFileType "song.mp3.zip" = FileType.OTHER ∧
    detectFileType "name." = FileType.OTHER :=
  ⟨detectFileType_by_extension.1 "README" (by decide),
    (detectFileType_by_extension.2.1 "a.b".toList "Jpeg".toList (by decide)).trans (by decide),
    detectFileType_by_extension.2.2.1 "a.b".toList "Jpeg".toList "photo".toList
      "jPEG".toList (by decide) (by decide) (by decide),
    (detectFileType_by_extension.2.1 "song.mp3".toList "zip".toList (by decide)).trans
      (by decide),
    detectFileType_by_extension.2.2.2.2 "name".toList⟩

/-! ## Registration -/

theorem UserRepository.find_add_other (r : UserRepository) (u : User) (m : String)
    (hne : m ≠ u.username) : (r.add u).find m = r.find m := by
  unfold UserRepository.add
  by_cases h : r.existsUser u.username = true
  · rw [if_pos h]
    unfold UserRepository.find
    apply find?_modifyFirst_other
    intro x hx
    have hx1 : x.username = u.username := by simpa using hx
    have hx2 : ¬ x.username = m := fun hh => hne (hh.symm.trans hx1)
    have hx3 : ¬ u.username = m := fun hh => hne hh.symm
    simp [hx2, hx3]
  · rw [if_neg h]
    unfold UserRepository.find
    dsimp only
    rw [List.find?_append]
    have hx3 : ¬ u.username = m := fun hh => hne hh.symm
    cases r.users.find? (fun x => x.username == m) with
    | some x => rfl
    | none => simp [List.find?_cons, hx3]

theorem readUsername_some (r : UserRepository) (l : List String) (name : String)
    (h : readUsername r l = some name) :
    name ∈ l ∧ 3 ≤ name.utf8ByteSize ∧ r.find name = none := by
  induction l with
  | nil => simp [readUsername] at h
  | cons x xs ih =>
    by_cases h1 : x.utf8ByteSize < 3
    · have := ih (by simpa [readUsername, h1] using h)
      exact ⟨List.mem_cons_of_mem x this.1, this.2⟩
    · by_cases h2 : r.existsUser x = true
      · have := ih (by simpa [readUsername, h1, h2] using h)
        exact ⟨List.mem_cons_of_mem x this.1, this.2⟩
      · simp [readUsername, h1, h2] at h
        subst h
        refine ⟨List.mem_cons_self _ xs, by omega, ?_⟩
        unfold UserRepository.existsUser at h2
        cases hf : r.find x with
        | none => rfl
        | some u => simp [hf] at h2

theorem readPassword_some (n : Nat) : ∀ (l : List String) (pwd : String), l.length ≤ n →
    readPassword l = some pwd →
    pwd ∈ l ∧ Config.PASSWORD_MIN_LEN ≤ (pwd.utf8ByteSize : Int) ∧
      pwd.toList.any Char.isDigit = true ∧ pwd.toList.any Char.isAlpha = true := by
  induction n with
  | zero =>
    intro l pwd hlen h
    have : l = [] := List.eq_nil_of_length_eq_zero (by omega)
    subst this
    simp [readPassword] at h
  | succ k ih =>
    intro l pwd hlen h
    cases l with
    | nil => simp [readPassword] at h
    | cons x rest =>
      have hrest : rest.length ≤ k := by simp at hlen; omega
      by_cases h1 : (x.utf8ByteSize : Int) < Config.PASSWORD_MIN_LEN
      · have := ih rest pwd hrest (by
          unfold readPassword at h
          rw [if_pos h1] at h
          exact h)
        exact ⟨List.mem_cons_of_mem x this.1, this.2⟩
      · by_cases h2 : (!(x.toList.any Char.isDigit) || !(x.toList.any Char.isAlpha)) = true
        · have := ih rest pwd hrest (by
            unfold readPassword at h
            rw [if_neg h1, if_pos h2] at h
            exact h)
          exact ⟨List.mem_cons_of_mem x this.1, this.2⟩
        · unfold readPassword at h
          rw [if_neg h1, if_neg h2] at h
          cases rest with
          | nil => simp at h
          | cons c rest2 =>
            by_cases h3 : x = c
            · simp only [h3, ne_eq, not_true_eq_false, if_false, Option.some.injEq] at h
              subst h3
              subst h
              have hd : x.toList.any Char.isDigit = true := by
                cases hh : x.toList.any Char.isDigit with
                | true => rfl
                | false => exact absurd (by rw [hh]; rfl) h2
              have ha : x.toList.any Char.isAlpha = true := by
                cases hh : x.toList.any Char.isAlpha with
                | true => rfl
                | false => exact absurd (by rw [hh]; simp) h2
              exact ⟨List.mem_cons_self _ _, not_lt.mp h1, hd, ha⟩
            · simp only [ne_eq, h3, not_false_eq_true, if_true] at h
              have hrest2 : rest2.length ≤ k := by simp at hrest; omega
              have := ih rest2 pwd hrest2 h
              exact ⟨List.mem_cons_of_mem x (List.mem_cons_of_mem c this.1), this.2⟩

theorem readAge_some (l : List (Option Int)) (age : Int) (h : readAge l = some age) :
    some age ∈ l ∧ 1 ≤ age ∧ age ≤ 120 := by
  induction l with
  | nil => simp [readAge] at h
  | cons x xs ih =>
    cases x with
    | none =>
      have := ih (by simpa [readAge] using h)
      exact ⟨List.mem_cons_of_mem _ this.1, this.2⟩
    | some a =>
      by_cases ha : a < 1 ∨ a > 120
      · have := ih (by simpa [readAge, ha] using h)
        exact ⟨List.mem_cons_of_mem _ this.1, this.2⟩
      · simp only [readAge, ha, if_false, Option.some.injEq] at h
        subst h
        exact ⟨List.mem_cons_self _ xs, by omega, by omega⟩

theorem readGender_some (l : List String) (g : String) (h : readGender l = some g) :
    g ∈ l ∧ (g = "M" ∨ g = "m" ∨ g = "F" ∨ g = "f") := by
  induction l with
  | nil => simp [readGender] at h
  | cons x xs ih =>
    by_cases hx : x = "M" ∨ x = "m" ∨ x = "F" ∨ x = "f"
    · simp only [readGender, hx, if_true, Option.some.injEq] at h
      subst h
      exact ⟨List.mem_cons_self _ xs, hx⟩
    · have := ih (by simpa [readGender, hx] using h)
      exact ⟨List.mem_cons_of_mem _ this.1, this.2⟩

/-- C15. Registration.  The account table is written once, by the `add` after the last
prompt.  When `registerUser` returns, the account it added has a username of at least 3
bytes that was not registered, a password of at least 8 bytes with a letter and a digit,
an age in `1..120`, a gender among `M`, `m`, `F`, `f`, `usedStorage` 0, role Basic,
`failedLogins` 0, unlocked, active, MFA disabled and the digest of `salt ++ password`
as `passwordHash`; every account registered before is unchanged, as are the file lists and
the session.  For one answer at each prompt (a username, a password and its
confirmation, an age that parses, a gender), `registerUser` returns, and so adds the
account, exactly when all the conditions hold; when one fails no engine is returned and
nothing is added. -/
theorem registration (sha256 : String → String) (e : CloudEngine) (inp : RegisterInput) :
    (∀ e1 ok, registerUser sha256 e inp = some (e1, ok) →
      ∃ u pwd,
        u.username ∈ inp.usernames ∧ 3 ≤ u.username.utf8ByteSize ∧
        e.userRepo.find u.username = none ∧
        pwd ∈ inp.passwords ∧ 8 ≤ pwd.utf8ByteSize ∧
        pwd.toList.any Char.isAlpha = true ∧ pwd.toList.any Char.isDigit = true ∧
        1 ≤ u.age ∧ u.age ≤ 120 ∧
        (u.gender = "M" ∨ u.gender = "m" ∨ u.gender = "F" ∨ u.gender = "f") ∧
        u.usedStorage = 0 ∧ u.role = UserRole.FREE_USER ∧ u.failedLogins = 0 ∧
        u.isLocked = false ∧ u.isActive = true ∧ u.mfaEnabled = false ∧
        u.salt = inp.salt ∧ u.passwordHash = sha256 (u.salt ++ pwd) ∧
        e1.userRepo.find u.username = some u ∧
        (∀ m, m ≠ u.username → e1.userRepo.find m = e.userRepo.find m) ∧
        e1.fileRepo = e.fileRepo ∧ e1.currentUser = e.currentUser ∧ ok = inp.saved) ∧
    (∀ (name pwd confirm : String) (age : Int) (gender : String),
      inp.usernames = [name] → inp.passwords = [pwd, confirm] →
      inp.ages = [some age] → inp.genders = [gender] →
      ((∃ r, registerUser sha256 e inp = some r) ↔
        (3 ≤ name.utf8ByteSize ∧ e.userRepo.find name = none ∧
          8 ≤ pwd.utf8ByteSize ∧
          pwd.toList.any Char.isAlpha = true ∧ pwd.toList.any Char.isDigit = true ∧
          pwd = confirm ∧ 1 ≤ age ∧ age ≤ 120 ∧
          (gender = "M" ∨ gender = "m" ∨ gender = "F" ∨ gender = "f")))) := by
  constructor
  · intro e1 ok h
    unfold registerUser at h
    cases h1 : readUsername e.userRepo inp.usernames with
    | none => simp [h1] at h
    | some username =>
      cases h2 : readPassword inp.passwords with
      | none => simp [h1, h2] at h
      | some pwd =>
        cases h3 : readAge inp.ages with
        | none => simp [h1, h2, h3] at h
        | some age =>
          cases h4 : readGender inp.genders with
          | none => simp [h1, h2, h3, h4] at h
          | some gender =>
            simp only [h1, h2, h3, h4, Option.some.injEq, Prod.mk.injEq] at h
            obtain ⟨he1, hok⟩ := h
            obtain ⟨a1, a2, a3⟩ := readUsername_some _ _ _ h1
            obtain ⟨b1, b2, b3, b4⟩ := readPassword_some _ _ _ (le_refl _) h2
            obtain ⟨_, c2, c3⟩ := readAge_some _ _ h3
            obtain ⟨_, d2⟩ := readGender_some _ _ h4
            have b2n : 8 ≤ pwd.utf8ByteSize := by
              unfold Config.PASSWORD_MIN_LEN at b2
              omega
            rw [← he1]
            refine ⟨_, pwd, a1, a2, a3, b1, b2n, b4, b3, c2, c3, d2, rfl, rfl, rfl, rfl, rfl,
              rfl, rfl, rfl, UserRepository.find_add_same e.userRepo _, ?_, rfl, rfl,
              hok.symm⟩
            intro m hm
            exact UserRepository.find_add_other e.userRepo _ m hm
  · intro name pwd confirm age gender hu hp ha hg
    have hU : readUsername e.userRepo [name] =
        if name.utf8ByteSize < 3 then none
        else if e.userRepo.existsUser name then none else some name := by
      simp [readUsername]
    have hP : readPassword [pwd, confirm] =
        if (pwd.utf8ByteSize : Int) < Config.PASSWORD_MIN_LEN then none
        else if (!(pwd.toList.any Char.isDigit) || !(pwd.toList.any Char.isAlpha)) = true
          then none
        else if pwd ≠ confirm then none else some pwd := by
      unfold readPassword
      by_cases h1 : (pwd.utf8ByteSize : Int) < Config.PASSWORD_MIN_LEN
      · rw [if_pos h1, if_pos h1]
        unfold readPassword
        by_cases h5 : (confirm.utf8ByteSize : Int) < Config.PASSWORD_MIN_LEN
        · rw [if_pos h5]; rfl
        · rw [if_neg h5]
          by_cases h6 : (!(confirm.toList.any Char.isDigit) ||
              !(confirm.toList.any Char.isAlpha)) = true
          · rw [if_pos h6]; rfl
          · rw [if_neg h6]
      · rw [if_neg h1, if_neg h1]
        by_cases h2 : (!(pwd.toList.any Char.isDigit) || !(pwd.toList.any Char.isAlpha)) = true
        · rw [if_pos h2, if_pos h2]
          unfold readPassword
          by_cases h5 : (confirm.utf8ByteSize : Int) < Config.PASSWORD_MIN_LEN
          · rw [if_pos h5]; rfl
          · rw [if_neg h5]
            by_cases h6 : (!(confirm.toList.any Char.isDigit) ||
                !(confirm.toList.any Char.isAlpha)) = true
            · rw [if_pos h6]; rfl
            · rw [if_neg h6]
        · rw [if_neg h2, if_neg h2]
          by_cases h3 : pwd ≠ confirm
          · rw [if_pos h3]
            show (if pwd ≠ confirm then readPassword [] else some pwd) = none
            rw [if_pos h3]; rfl
          · rw [if_neg h3]
            show (if pwd ≠ confirm then readPassword [] else some pwd) = some pwd
            rw [if_neg h3]
    have hA : readAge [some age] = if age < 1 ∨ age > 120 then none else some age := by
      simp [readAge]
    have hG : readGender [gender] =
        if gender = "M" ∨ gender = "m" ∨ gender = "F" ∨ gender = "f" then some gender
        else none := by
      simp [readGender]
    have hex : e.userRepo.existsUser name = true ↔ e.userRepo.find name ≠ none := by
      unfold UserRepository.existsUser
      cases e.userRepo.find name <;> simp
    unfold registerUser
    rw [hu, hp, ha, hg, hU, hP, hA, hG]
    unfold Config.PASSWORD_MIN_LEN
    constructor
    · rintro ⟨r, hr⟩
      by_cases c1 : name.utf8ByteSize < 3
      · simp [c1] at hr
      by_cases c2 : e.userRepo.existsUser name = true
      · simp [c1, c2] at hr
      by_cases c3 : (pwd.utf8ByteSize : Int) < 8
      · simp [c1, c2, c3] at hr
      by_cases c4 : (!(pwd.toList.any Char.isDigit) || !(pwd.toList.any Char.isAlpha)) = true
      · rw [if_neg c1, if_neg c2] at hr
        simp only [if_neg c3, if_pos c4] at hr
        exact absurd hr (by simp)
      by_cases c5 : pwd ≠ confirm
      · rw [if_neg c1, if_neg c2] at hr
        simp only [if_neg c3, if_neg c4, if_pos c5] at hr
        exact absurd hr (by simp)
      by_cases c6 : age < 1 ∨ age > 120
      · rw [if_neg c1, if_neg c2] at hr
        simp only [if_neg c3, if_neg c4, if_neg c5, if_pos c6] at hr
        exact absurd hr (by simp)
      by_cases c7 : gender = "M" ∨ gender = "m" ∨ gender = "F" ∨ gender = "f"
      · have hd : pwd.toList.any Char.isDigit = true := by
          cases hh : pwd.toList.any Char.isDigit with
          | true => rfl
          | false => exact absurd (by rw [hh]; rfl) c4
        have hal : pwd.toList.any Char.isAlpha = true := by
          cases hh : pwd.toList.any Char.isAlpha with
          | true => rfl
          | false => exact absurd (by rw [hh]; simp) c4
        have hnone : e.userRepo.find name = none := by
          by_contra hne
          exact c2 (hex.mpr hne)
        exact ⟨by omega, hnone, by omega, hal, hd, not_not.mp c5, by omega, by omega, c7⟩
      · rw [if_neg c1, if_neg c2] at hr
        simp only [if_neg c3, if_neg c4, if_neg c5, if_neg c6, if_neg c7] at hr
        exact absurd hr (by simp)
    · rintro ⟨g1, g2, g3, g4, g5, g6, g7, g8, g9⟩
      have c1 : ¬ name.utf8ByteSize < 3 := by omega
      have c2 : ¬ e.userRepo.existsUser name = true := fun hh => (hex.mp hh) g2
      have c3 : ¬ (pwd.utf8ByteSize : Int) < 8 := by omega
      have c4 : ¬ (!(pwd.toList.any Char.isDigit) || !(pwd.toList.any Char.isAlpha)) = true := by
        rw [g4, g5]; simp
      have c5 : ¬ pwd ≠ confirm := not_not.mpr g6
      have c6 : ¬ (age < 1 ∨ age > 120) := by omega
      rw [if_neg c1, if_neg c2]
      simp only [if_neg c3, if_neg c4, if_neg c5, if_neg c6, if_pos g9]
      exact ⟨_, rfl⟩

/-- Witness of C15: `carol` registers on the empty engine; a password without a digit
and a taken username are refused. -/
theorem registration_witness :
    (∃ r, registerUser Sample.digest Sample.empty
      { Sample.registration with
        usernames := ["carol"], passwords := ["Password1", "Password1"],
        ages := [some 30], genders := ["F"] } = some r) ∧
    ¬ (∃ r, registerUser Sample.digest Sample.empty
      { Sample.registration with
        usernames := ["carol"], passwords := ["Passwords", "Passwords"],
        ages := [some 30], genders := ["F"] } = some r) ∧
    ¬ (∃ r, registerUser Sample.digest Sample.registered
      { Sample.registration with
        usernames := ["carol"], passwords := ["Password1", "Password1"],
        ages := [some 30], genders := ["F"] } = some r) :=
  ⟨((registration Sample.digest Sample.empty _).2 "carol" "Password1" "Password1" 30 "F"
      rfl rfl rfl rfl).mpr (by decide),
    fun h => absurd
      (((registration Sample.digest Sample.empty _).2 "carol" "Passwords" "Passwords" 30 "F"
        rfl rfl rfl rfl).mp h).2.2.2.2.1 (by decide),
    fun h => absurd
      (((registration Sample.digest Sample.registered _).2 "carol" "Password1" "Password1"
        30 "F" rfl rfl rfl rfl).mp h).2.1 (by decide)⟩

/-! ## Persistence -/

theorem FileRepository.pathOf_ne_users (username : String) :
    FileRepository.pathOf username ≠ Config.USERS_FILE := by
  intro h
  have h1 : (FileRepository.pathOf username).data =
      'c' :: 'l' :: 'o' :: 'u' :: 'd' :: '_' :: 'd' :: 'a' :: 't' :: 'a' :: '/' ::
        (username.data ++ ".dat".data) := rfl
  have h2 : Config.USERS_FILE.data =
      'c' :: 'l' :: 'o' :: 'u' :: 'd' :: '_' :: 'u' :: "sers.dat".data := rfl
  rw [h, h2] at h1
  simp at h1

theorem Disk.read_write_other (d : Disk) (path other : String) (text : String)
    (hne : other ≠ path) : (d.write path text).read other = d.read other := by
  unfold Disk.write
  by_cases h : (d.read path).isSome = true
  · rw [if_pos h]
    unfold Disk.read
    dsimp only
    rw [find?_modifyFirst_other (fun p => p.1 == path) (fun p => p.1 == other)
      (fun p => (p.1, text))]
    intro x hx
    have hx1 : x.1 = path := by simpa using hx
    have hx2 : ¬ x.1 = other := fun hh => hne (hh.symm.trans hx1)
    simp [hx2]
  · rw [if_neg h]
    unfold Disk.read
    dsimp only
    rw [List.find?_append]
    have hx3 : ¬ path = other := fun hh => hne hh.symm
    cases d.files.find? (fun p => p.1 == other) with
    | some x => rfl
    | none => simp [List.find?_cons, hx3]

/-- C13, counterexample.  `alice` (1020 MB used, one record of 1020 MB, both stores on
disk) uploads 4 MB; the account table is written and the data file of the user does not
open.  The run reports the failure, the file list in memory has two records while the
one on disk has one, and the account table on disk records 1024 MB while the sizes in the
file list on disk sum to 1020 MB. -/
theorem upload_persist_counterexample :
    (uploadFileStored roundDouble Sample.engine Sample.savedDisk
        Sample.halfSavedUpload).map
        (fun r => r.2.2) = some UploadMsg.failedToSave ∧
    (uploadFileStored roundDouble Sample.engine Sample.savedDisk
        Sample.halfSavedUpload).map
        (fun r => r.1.fileRepo.filesOfConst "alice") = some [Sample.archive, Sample.notes] ∧
    (uploadFileStored roundDouble Sample.engine Sample.savedDisk
        Sample.halfSavedUpload).bind
        (fun r => r.2.1.fileList "alice") = some [Sample.archive] ∧
    (uploadFileStored roundDouble Sample.engine Sample.savedDisk
        Sample.halfSavedUpload).bind
        (fun r => (r.2.1.accountTable.bind (fun t => t.find "alice")).map User.usedStorage) =
      some 1024 ∧
    ([Sample.archive].map FileRecord.sizeMB).sum = 1020 ∧
    [Sample.archive, Sample.notes] ≠ [Sample.archive] ∧ (1024 : ℚ) ≠ 1020 := by
  decide!

theorem uploadFileFl_accepted (fl : ℚ → ℚ) (e : CloudEngine) (inp : UploadInput)
    (username : String) (u : User) (preS : List (Option ℚ)) (sizeMB : ℚ)
    (restS : List (Option ℚ))
    (hcur : e.currentUser = some username) (hfind : e.userRepo.find username = some u)
    (hnames : ∃ n ∈ inp.names, n ≠ "")
    (hsizes : inp.sizes = preS ++ some sizeMB :: restS)
    (hpreS : ∀ x ∈ preS, ∀ s, x = some s → s ≤ 0)
    (hpos : 0 < sizeMB) (hfit : fl (u.usedStorage + sizeMB) ≤ u.storageLimit) :
    ∃ fr : FileRecord, fr.sizeMB = sizeMB ∧
      uploadFileFl fl e inp = some
        ({ e with
            userRepo := e.userRepo.modify username
              (fun x => { x with usedStorage := fl (x.usedStorage + sizeMB) })
            fileRepo := e.fileRepo.assign username
              (e.fileRepo.filesOfConst username ++ [fr]) },
          if inp.usersSaved && inp.filesSaved then UploadMsg.uploaded
          else UploadMsg.failedToSave) := by
  obtain ⟨name, hn, _⟩ := readFileName_of_mem inp.names hnames
  have hun : u.username = username := UserRepository.find_username _ _ _ hfind
  have hs : readFileSizeFl fl u inp.sizes = some (SizePrompt.accepted sizeMB) := by
    rw [hsizes, readFileSizeFl_append fl u preS _ hpreS]
    simp [readFileSizeFl, not_le.mpr hpos, not_lt.mpr hfit]
  refine ⟨{ id := inp.fileId, name := name, owner := u.username,
            region := regionOfChoice inp.regionChoice, type := detectFileType name,
            uploadDate := inp.uploadDate, sizeMB := sizeMB,
            description := inp.description,
            isPublic := inp.makePublic = 'Y' ∨ inp.makePublic = 'y',
            encryptedAtRest := inp.encrypt = 'Y' ∨ inp.encrypt = 'y' }, rfl, ?_⟩
  unfold uploadFileFl
  simp only [hcur, hfind, hn, hs, FileRepository.filesOfConst_filesOf, hun]

/-- C13, amended.  For a logged-in account and an upload that passes the limit check
(the name prompt ends, `sizeMB > 0` is the first answer of the size prompt that parses and
is positive, and the double sum `fl (usedStorage + sizeMB)` is not above `storageLimit`):
when the account table or the data file of the user does not open, `uploadFile` returns
with the failure message and leaves the state in memory as the upload made it, the
session kept, `usedStorage` incremented and the record appended; nothing is reloaded or
rolled back.  When the account table does not open, the data file of the user is not
written either and the disk is unchanged.  When the account table is written and the
data file of the user does not open, the account table on disk holds the lines of the
table in memory, in some order, and every other file, the data file of the user among
them, reads as before. -/
theorem upload_persist_failure (fl : ℚ → ℚ) (e : CloudEngine) (d : Disk)
    (inp : UploadInput) (username : String) (u : User) (preS : List (Option ℚ))
    (sizeMB : ℚ) (restS : List (Option ℚ))
    (hcur : e.currentUser = some username) (hfind : e.userRepo.find username = some u)
    (hnames : ∃ n ∈ inp.names, n ≠ "")
    (hsizes : inp.sizes = preS ++ some sizeMB :: restS)
    (hpreS : ∀ x ∈ preS, ∀ s, x = some s → s ≤ 0)
    (hpos : 0 < sizeMB) (hfit : fl (u.usedStorage + sizeMB) ≤ u.storageLimit)
    (hfail : inp.usersSaved = false ∨ inp.filesSaved = false) :
    ∃ e1 d1 fr,
      uploadFileStored fl e d inp = some (e1, d1, UploadMsg.failedToSave) ∧
      fr.sizeMB = sizeMB ∧
      e1.currentUser = some username ∧
      e1.userRepo.find username =
        some { u with usedStorage := fl (u.usedStorage + sizeMB) } ∧
      e1.fileRepo.filesOfConst username = e.fileRepo.filesOfConst username ++ [fr] ∧
      (∀ m, m ≠ username → e1.userRepo.find m = e.userRepo.find m) ∧
      (inp.usersSaved = false → d1 = d) ∧
      (inp.usersSaved = true →
        (∃ lines, lines.Perm (e1.userRepo.users.map userLine) ∧
          d1 = d.write Config.USERS_FILE (String.join lines)) ∧
        d1.read (FileRepository.pathOf username) = d.read (FileRepository.pathOf username) ∧
        ∀ path, path ≠ Config.USERS_FILE → d1.read path = d.read path) := by
  obtain ⟨fr, hsize, hup⟩ :=
    uploadFileFl_accepted fl e inp username u preS sizeMB restS hcur hfind hnames hsizes
      hpreS hpos hfit
  have hf := UserRepository.find_modify_same e.userRepo username
    (fun x => { x with usedStorage := fl (x.usedStorage + sizeMB) }) (fun _ => rfl)
  rw [hfind] at hf
  have hother : ∀ m, m ≠ username →
      (e.userRepo.modify username
        (fun x => { x with usedStorage := fl (x.usedStorage + sizeMB) })).find m =
      e.userRepo.find m :=
    fun m hm => UserRepository.find_modify_other e.userRepo username m _ (fun _ => rfl) hm
  cases hus : inp.usersSaved with
  | false =>
    refine ⟨{ e with
        userRepo := e.userRepo.modify username
          (fun x => { x with usedStorage := fl (x.usedStorage + sizeMB) })
        fileRepo := e.fileRepo.assign username
          (e.fileRepo.filesOfConst username ++ [fr]) }, d, fr, ?_, hsize, ?_, hf, FileRepository.filesOfConst_assign_same _ _ _,
      hother, fun _ => rfl, fun hh => by simp at hh⟩
    · simp [uploadFileStored, hup, hcur, persistBoth, UserRepository.save, hus]
    · exact hcur
  | true =>
    have hfs : inp.filesSaved = false := by
      rcases hfail with h | h
      · rw [hus] at h; cases h
      · exact h
    refine ⟨{ e with
        userRepo := e.userRepo.modify username
          (fun x => { x with usedStorage := fl (x.usedStorage + sizeMB) })
        fileRepo := e.fileRepo.assign username
          (e.fileRepo.filesOfConst username ++ [fr]) }, _, fr, ?_, hsize, ?_, hf, FileRepository.filesOfConst_assign_same _ _ _,
      hother, fun hh => by simp at hh,
      fun _ => ⟨⟨_, List.Perm.refl _, rfl⟩,
        Disk.read_write_other d _ _ _ (FileRepository.pathOf_ne_users username),
        fun path hp => Disk.read_write_other d _ _ _ hp⟩⟩
    · simp [uploadFileStored, hup, hcur, persistBoth, UserRepository.save,
        FileRepository.saveUserFiles, hus, hfs]
    · exact hcur

/-- Witness of C13 (amended): the upload of the counterexample, 4 MB onto 1020 MB with
the account table written and the data file of the user not opening. -/
theorem upload_persist_failure_witness :
    ∃ e1 d1 fr,
      uploadFileStored roundDouble Sample.engine Sample.savedDisk Sample.halfSavedUpload =
        some (e1, d1, UploadMsg.failedToSave) ∧
      fr.sizeMB = 4 ∧
      e1.currentUser = some "alice" ∧
      e1.userRepo.find "alice" =
        some { Sample.alice with usedStorage := roundDouble (Sample.alice.usedStorage + 4) } ∧
      e1.fileRepo.filesOfConst "alice" =
        Sample.engine.fileRepo.filesOfConst "alice" ++ [fr] ∧
      (∀ m, m ≠ "alice" → e1.userRepo.find m = Sample.engine.userRepo.find m) ∧
      (Sample.halfSavedUpload.usersSaved = false → d1 = Sample.savedDisk) ∧
      (Sample.halfSavedUpload.usersSaved = true →
        (∃ lines, lines.Perm (e1.userRepo.users.map userLine) ∧
          d1 = Sample.savedDisk.write Config.USERS_FILE (String.join lines)) ∧
        d1.read (FileRepository.pathOf "alice") =
          Sample.savedDisk.read (FileRepository.pathOf "alice") ∧
        ∀ path, path ≠ Config.USERS_FILE → d1.read path = Sample.savedDisk.read path) :=
  upload_persist_failure roundDouble Sample.engine Sample.savedDisk Sample.halfSavedUpload
    "alice" Sample.alice [none, some 0] 4 [] rfl rfl
    ⟨"notes.txt", by simp [Sample.halfSavedUpload, Sample.upload], by decide⟩ rfl
    (by intro x hx s hs; simp at hx; rcases hx with rfl | rfl <;> simp at hs; simp [← hs])
    (by norm_num) (by decide!) (Or.inr rfl)

/-- C14, at the failing input.  Saving and loading the account table of `alice` with
1020.001 MB used yields `alice` with 1020 MB used: the line written holds `1020`, since
`operator<<` writes a `double` with 6 significant digits.  In the same way a record of
1234.5678 MB is written as `1234.57` and comes back with that size.  Every other field
comes back equal, and so does a table whose sizes have at most 6 significant digits. -/
theorem save_load_rounds_sizes :
    Sample.aliceAfterSmallUpload.usedStorage = 1020001 / 1000 ∧
    userLine Sample.aliceAfterSmallUpload =
      "alice|s1|h1|Alice A|30|F|0|1020|1000|1|0|0|0|0\n" ∧
    UserRepository.load ⟨[]⟩
        (UserRepository.save ⟨[Sample.aliceAfterSmallUpload, Sample.bob]⟩ ⟨[]⟩ true).1 =
      some ⟨[{ Sample.aliceAfterSmallUpload with usedStorage := 1020 }, Sample.bob]⟩ ∧
    Sample.bigRecord.sizeMB = 12345678 / 10000 ∧
    (FileRepository.saveUserFiles ⟨[("alice", [Sample.bigRecord, Sample.notes])]⟩ "alice"
        ⟨[]⟩ true).2.1.fileList "alice" =
      some [{ Sample.bigRecord with sizeMB := 123457 / 100 }, Sample.notes] ∧
    UserRepository.load ⟨[]⟩ (UserRepository.save Sample.office.userRepo ⟨[]⟩ true).1 =
      some Sample.office.userRepo := by
  decide!

end CloudEngine

end CloudStorage
